import Mathlib

/-
  Verification of the IORedis adapter for next-auth
  (src/lib/IORedisAdapter.ts) against its specification.

  The development shallowly embeds the adapter: entity records are
  association lists of field name to value, the Redis backend is a map
  from keys to either a string value or a hash (field map), and every
  adapter operation is an explicit state-passing function returning
  `Except RErr (result × Store)`.  Redis command semantics (GET/SET/DEL/
  HSET/HGETALL/HDEL, including the WRONGTYPE error and the rejection of
  HSET/HDEL invoked with no fields) follow the Redis documentation.

  JavaScript `Date` values are modelled as integer milliseconds since
  the Unix epoch.  `Date.prototype.toISOString` and the ISO-8601 part of
  `Date.parse` are modelled for instants whose UTC year lies in
  0..9999 (four-digit years, the only form the adapter itself produces
  and the only form its detection regex can match at the start of a
  field); the ECMA-262 expanded-year forms are outside the modelled
  fragment.
-/

namespace RedisAdapter

/-! ## JavaScript values -/

/-- A JavaScript value as it occurs in adapter entity records: a string,
a `Date` (milliseconds since the Unix epoch), or `undefined`. -/
inductive Val where
  | str (s : String) : Val
  | date (ms : Int) : Val
  | undefined : Val
deriving DecidableEq

/-- JS string truthiness: a string is truthy iff it is nonempty. -/
def strTruthy (s : String) : Bool := !s.data.isEmpty

/-- JS value truthiness (`if (user.email)` style tests). -/
def truthyVal : Val → Bool
  | .str s => strTruthy s
  | .date _ => true
  | .undefined => false

/-- JS string coercion of a `Date`.  `Date.prototype.toString` produces a
locale-style text that no adapter code path exercises with well-typed
inputs (keys are built only from string-typed fields); it is abstracted
as a fixed tag. -/
def dateToString (_ : Int) : String := "[Date]"

/-- JS string coercion as used when a value is concatenated into a key. -/
def jsToString : Val → String
  | .str s => s
  | .date i => dateToString i
  | .undefined => "undefined"

/-- JS strict equality (`===`) restricted to the values of the model.
Two `Date` objects are compared by reference; a decoded `Date` is a
fresh object, so strict equality involving a `Date` is `false`.
`undefined === undefined` is `true`. -/
def jsStrictEqV : Val → Val → Bool
  | .str a, .str b => a == b
  | .undefined, .undefined => true
  | _, _ => false

/-- Strict equality on possibly-absent property reads (an absent property
reads as `undefined`). -/
def jsStrictEqOpt : Option Val → Option Val → Bool
  | none, none => true
  | some a, some b => jsStrictEqV a b
  | none, some b => jsStrictEqV .undefined b
  | some a, none => jsStrictEqV a .undefined

/-! ## Digits -/

/-- The decimal digit character for `n` (meaningful for `n ≤ 9`). -/
def digitChar (n : Nat) : Char := Char.ofNat (48 + n)

/-- Is `c` a decimal digit (the regex class `\d`)? -/
def digitB (c : Char) : Bool := 48 ≤ c.toNat && c.toNat ≤ 57

/-- Numeric value of a digit character. -/
def val1 (c : Char) : Nat := c.toNat - 48

/-- Numeric value of a two-digit group. -/
def val2 (a b : Char) : Nat := 10 * val1 a + val1 b

/-- Two-digit zero-padded rendering. -/
def pad2c (n : Nat) : List Char := [digitChar (n / 10), digitChar (n % 10)]

/-- Three-digit zero-padded rendering. -/
def pad3c (n : Nat) : List Char := [digitChar (n / 100), digitChar (n / 10 % 10), digitChar (n % 10)]

/-- Four-digit zero-padded rendering. -/
def pad4c (n : Nat) : List Char :=
  [digitChar (n / 1000), digitChar (n / 100 % 10), digitChar (n / 10 % 10), digitChar (n % 10)]

/-! ## Proleptic Gregorian calendar (as used by JS `Date`, UTC) -/

/-- Gregorian leap-year rule. -/
def isLeap (y : Nat) : Bool := (y % 4 == 0 && y % 100 != 0) || y % 400 == 0

/-- Days in a year with the given leap flag. -/
def daysInYearB (leap : Bool) : Nat := if leap then 366 else 365

/-- Days in year `y`. -/
def daysInYear (y : Nat) : Nat := daysInYearB (isLeap y)

/-- Days in month `m` (1..12) of a year with the given leap flag. -/
def daysInMonth (leap : Bool) (m : Nat) : Nat :=
  if m = 2 then (if leap then 29 else 28)
  else if m = 4 ∨ m = 6 ∨ m = 9 ∨ m = 11 then 30
  else 31

/-- Days from 0000-01-01 to the start of year `y`: the closed form of
the sum of `daysInYear` over the years before `y` (`365·y` plus the
number of leap years below `y`); the recurrence
`daysSinceYear0 (y+1) = daysSinceYear0 y + daysInYear y` is proved
below. -/
def daysSinceYear0 (y : Nat) : Nat :=
  365 * y + (y + 3) / 4 - (y + 99) / 100 + (y + 399) / 400

/-- Days from the start of the year to the start of month `m` (1..12). -/
def daysToMonth (leap : Bool) : Nat → Nat
  | 0 => 0
  | 1 => 0
  | m + 2 => daysToMonth leap (m + 1) + daysInMonth leap (m + 1)

/-- Day count from 0000-01-01 to 1970-01-01 (the Unix epoch). -/
def epochDays : Nat := daysSinceYear0 1970

/-- First millisecond of year 10000: the (exclusive) upper bound of the
modelled instant range. -/
def msUpper : Nat := (daysSinceYear0 10000 - epochDays) * 86400000

/-- Splits a day count into (year, day-of-year), starting the search at
year `y`; fuel-driven so that it computes by `rfl`/`decide`. -/
def yearOfDaysAux : Nat → Nat → Nat → Nat × Nat
  | 0, y, d => (y, d)
  | fuel + 1, y, d =>
    if d < daysInYear y then (y, d) else yearOfDaysAux fuel (y + 1) (d - daysInYear y)

/-- Year and day-of-year of the day `d` days after the start of year `y`. -/
def yearOfDays (y d : Nat) : Nat × Nat := yearOfDaysAux (d + 1) y d

/-- Splits a day-of-year into (month, day-of-month), starting at month `m`. -/
def monthOfDaysAux : Nat → Bool → Nat → Nat → Nat × Nat
  | 0, _, m, d => (m, d)
  | fuel + 1, leap, m, d =>
    if d < daysInMonth leap m then (m, d)
    else monthOfDaysAux fuel leap (m + 1) (d - daysInMonth leap m)

/-- Month (1..12) and zero-based day-of-month of a day-of-year. -/
def monthOfDays (leap : Bool) (d : Nat) : Nat × Nat := monthOfDaysAux 11 leap 1 d

/-- Civil UTC date (year, month 1..12, day 1..31) of the day `dayN` days
after the Unix epoch. -/
def civilFromDays (dayN : Nat) : Nat × Nat × Nat :=
  let p := yearOfDays 1970 dayN
  let q := monthOfDays (isLeap p.1) p.2
  (p.1, q.1, q.2 + 1)

/-! ## `Date.prototype.toISOString` -/

/-- The character list of `toISOString` for the instant `ms` milliseconds
after the epoch: `YYYY-MM-DDTHH:mm:ss.sssZ`. -/
def toISOChars (ms : Nat) : List Char :=
  let dayN := ms / 86400000
  let rem := ms % 86400000
  let c := civilFromDays dayN
  pad4c c.1 ++ '-' :: pad2c c.2.1 ++ '-' :: pad2c c.2.2 ++
    'T' :: pad2c (rem / 3600000) ++ ':' :: pad2c (rem / 60000 % 60) ++
    ':' :: pad2c (rem / 1000 % 60) ++ '.' :: pad3c (rem % 1000) ++ ['Z']

/-- `Date.prototype.toISOString` for instants in the modelled range. -/
def toISOString (ms : Nat) : String := String.mk (toISOChars ms)

/-- `toISOString` on an arbitrary instant; instants outside the modelled
range (before 1970 or from year 10000 on) are outside the fragment and
rendered as the empty string.  Every theorem that touches this case
carries an explicit range hypothesis. -/
def toISOStringInt (i : Int) : String :=
  if 0 ≤ i ∧ i < (msUpper : Int) then toISOString i.toNat else ""

/-! ## The ISO-8601 part of `Date.parse`

`Date.parse` accepts the ECMA-262 Date Time String Format
`YYYY-MM-DDTHH:mm[:ss[.digits]][Z|±HH:mm]` (exact match, calendar
validated).  Out-of-format strings fall back to implementation-defined
parsing, which rejects everything the adapter's regex can have accepted,
so the model returns `none` for them. -/

/-- Parses a trailing time-zone designator: `Z` or `±HH:mm` (whole rest). -/
def parseTZ : List Char → Option Int
  | ['Z'] => some 0
  | [s, a, b, ':', c, d] =>
    if (s == '+' || s == '-') && digitB a && digitB b && digitB c && digitB d
        && val2 a b ≤ 23 && val2 c d ≤ 59 then
      some ((if s == '+' then (1 : Int) else -1) * (val2 a b * 60 + val2 c d))
    else none
  | _ => none

/-- Milliseconds denoted by a fractional-seconds digit group (V8 keeps
millisecond precision: the first three digits, right-padded with zeros). -/
def fracMs : List Char → Nat
  | [] => 0
  | [a] => 100 * val1 a
  | [a, b] => 100 * val1 a + 10 * val1 b
  | a :: b :: c :: _ => 100 * val1 a + 10 * val1 b + val1 c

/-- Parses `[:ss[.digits]]` followed by the time-zone designator; returns
(seconds, milliseconds, offset minutes). -/
def parseTimeTail : List Char → Option (Nat × Nat × Int)
  | ':' :: a :: b :: rest =>
    if digitB a && digitB b then
      match rest with
      | '.' :: fr =>
        let ds := fr.takeWhile digitB
        let rest2 := fr.dropWhile digitB
        if ds.isEmpty then none
        else
          match parseTZ rest2 with
          | some tz => some (val2 a b, fracMs ds, tz)
          | none => none
      | _ =>
        match parseTZ rest with
        | some tz => some (val2 a b, 0, tz)
        | none => none
    else none
  | rest =>
    match parseTZ rest with
    | some tz => some (0, 0, tz)
    | none => none

/-- Parses a whole string in the Date Time String Format with a four-digit
year and a mandatory time part; result is the instant in milliseconds
since the epoch (possibly negative under a positive offset near it). -/
def parseISOChars : List Char → Option Int
  | y1 :: y2 :: y3 :: y4 :: '-' :: m1 :: m2 :: '-' :: e1 :: e2 ::
      'T' :: h1 :: h2 :: ':' :: n1 :: n2 :: rest =>
    if digitB y1 && digitB y2 && digitB y3 && digitB y4 && digitB m1 && digitB m2
        && digitB e1 && digitB e2 && digitB h1 && digitB h2 && digitB n1 && digitB n2 then
      let y := 1000 * val1 y1 + 100 * val1 y2 + 10 * val1 y3 + val1 y4
      let mo := val2 m1 m2
      let dy := val2 e1 e2
      let hh := val2 h1 h2
      let mi := val2 n1 n2
      match parseTimeTail rest with
      | some (ss, fff, tz) =>
        if 1 ≤ mo && mo ≤ 12 && 1 ≤ dy && dy ≤ daysInMonth (isLeap y) mo
            && mi ≤ 59 && ss ≤ 59
            && (hh ≤ 23 || (hh == 24 && mi == 0 && ss == 0 && fff == 0)) then
          some ((((daysSinceYear0 y + daysToMonth (isLeap y) mo + (dy - 1) : Nat) : Int)
                - (epochDays : Int)) * 86400000
              + (hh : Int) * 3600000 + (mi : Int) * 60000 + (ss : Int) * 1000
              + (fff : Int) - tz * 60000)
        else none
      | none => none
    else none
  | _ => none

/-- `Date.parse`, on the fragment described above. -/
def parseISO (s : String) : Option Int := parseISOChars s.data

/-! ## The detection regex

```
/(\d{4}-[01]\d-[0-3]\dT[0-2]\d:[0-5]\d:[0-5]\d\.\d+([+-][0-2]\d:[0-5]\d|Z))|(\d{4}-[01]\d-[0-3]\dT[0-2]\d:[0-5]\d:[0-5]\d([+-][0-2]\d:[0-5]\d|Z))|(\d{4}-[01]\d-[0-3]\dT[0-2]\d:[0-5]\d([+-][0-2]\d:[0-5]\d|Z))/
```

`RegExp.prototype.test` is unanchored: the pattern may match starting at
any position of the subject.  Each alternative is modelled by a matcher
that recognises the alternative as a prefix of its argument. -/

/-- The tail alternative `([+-][0-2]\d:[0-5]\d|Z)` as a prefix. -/
def reOffTail : List Char → Bool
  | 'Z' :: _ => true
  | s :: a :: b :: ':' :: c :: d :: _ =>
    (s == '+' || s == '-') && digitB a && a.toNat ≤ 50 && digitB b
      && digitB c && c.toNat ≤ 53 && digitB d
  | _ => false

/-- `\d*` followed by the offset alternative (the offset never starts
with a digit, so maximal munch is complete). -/
def reAfterDigits : List Char → Bool
  | [] => false
  | c :: rest => if digitB c then reAfterDigits rest else reOffTail (c :: rest)

/-- `\d+` followed by the offset alternative. -/
def reFracTail : List Char → Bool
  | [] => false
  | c :: rest => digitB c && reAfterDigits rest

/-- First regex alternative (seconds and fractional seconds) as a prefix. -/
def reA1 : List Char → Bool
  | a :: b :: c :: d :: '-' :: m1 :: m2 :: '-' :: e1 :: e2 ::
      'T' :: h1 :: h2 :: ':' :: n1 :: n2 :: ':' :: s1 :: s2 :: '.' :: rest =>
    digitB a && digitB b && digitB c && digitB d
      && (m1 == '0' || m1 == '1') && digitB m2
      && digitB e1 && e1.toNat ≤ 51 && digitB e2
      && digitB h1 && h1.toNat ≤ 50 && digitB h2
      && digitB n1 && n1.toNat ≤ 53 && digitB n2
      && digitB s1 && s1.toNat ≤ 53 && digitB s2
      && reFracTail rest
  | _ => false

/-- Second regex alternative (seconds, no fraction) as a prefix. -/
def reA2 : List Char → Bool
  | a :: b :: c :: d :: '-' :: m1 :: m2 :: '-' :: e1 :: e2 ::
      'T' :: h1 :: h2 :: ':' :: n1 :: n2 :: ':' :: s1 :: s2 :: rest =>
    digitB a && digitB b && digitB c && digitB d
      && (m1 == '0' || m1 == '1') && digitB m2
      && digitB e1 && e1.toNat ≤ 51 && digitB e2
      && digitB h1 && h1.toNat ≤ 50 && digitB h2
      && digitB n1 && n1.toNat ≤ 53 && digitB n2
      && digitB s1 && s1.toNat ≤ 53 && digitB s2
      && reOffTail rest
  | _ => false

/-- Third regex alternative (no seconds) as a prefix. -/
def reA3 : List Char → Bool
  | a :: b :: c :: d :: '-' :: m1 :: m2 :: '-' :: e1 :: e2 ::
      'T' :: h1 :: h2 :: ':' :: n1 :: n2 :: rest =>
    digitB a && digitB b && digitB c && digitB d
      && (m1 == '0' || m1 == '1') && digitB m2
      && digitB e1 && e1.toNat ≤ 51 && digitB e2
      && digitB h1 && h1.toNat ≤ 50 && digitB h2
      && digitB n1 && n1.toNat ≤ 53 && digitB n2
      && reOffTail rest
  | _ => false

/-- Does some alternative match at the head of the list? -/
def matchesAt (l : List Char) : Bool := reA1 l || reA2 l || reA3 l

/-- `isoDateRE.test`: does some alternative match at some position? -/
def containsISO : List Char → Bool
  | [] => false
  | c :: rest => matchesAt (c :: rest) || containsISO rest

/-- `isDate` (src/lib/IORedisAdapter.ts:38): truthy, matches the regex,
and `Date.parse` yields a valid instant. -/
def isDateB (s : String) : Bool :=
  strTruthy s && containsISO s.data && (parseISO s).isSome

/-! ## The hash codec -/

/-- Decoding of one stored hash field (`loadObjectFromHash`): a value that
the detector accepts becomes a `Date` at the parsed instant, anything
else stays a string. -/
def decodeVal (s : String) : Val :=
  if isDateB s then
    match parseISO s with
    | some i => Val.date i
    | none => Val.str s
  else Val.str s

/-- Encoding of one field value (`setObjectAsHash`): a `Date` is written
as its `toISOString`, a string is written as itself.  `undefined` is
stringified by the client driver. -/
def encodeVal : Val → String
  | .str s => s
  | .date i => toISOStringInt i
  | .undefined => "undefined"

/-! ## Records and hashes -/

/-- An entity record: an association list of field name to value, first
occurrence wins (JS objects have no duplicate keys). -/
abbrev Record := List (String × Val)

/-- A stored hash: field name to string value. -/
abbrev Hash := List (String × String)

/-- First-match association lookup. -/
def alookup {α : Type} : List (String × α) → String → Option α
  | [], _ => none
  | p :: t, k => if p.1 = k then some p.2 else alookup t k

/-- Property read `record.field`. -/
def getField (r : Record) (f : String) : Option Val := alookup r f

/-- Property read coerced to a string as key-building code does
(an absent property concatenates as `"undefined"`). -/
def fieldString (r : Record) (f : String) : String :=
  match getField r f with
  | some v => jsToString v
  | none => "undefined"

/-- Removes a key from an association list. -/
def eraseKey {α : Type} (l : List (String × α)) (k : String) : List (String × α) :=
  l.filter (fun p => p.1 != k)

/-- `{f: r.f, ...r}`: the JS pattern that pins field `f` first.  When `r`
has the field, its value is rewritten in place and the property order
puts `f` first; when it is absent, the property holds `undefined`. -/
def withFieldFirst (f : String) (r : Record) : Record :=
  match getField r f with
  | some v => (f, v) :: eraseKey r f
  | none => (f, Val.undefined) :: r

/-- JS object spread `{...a, ...b}`: keys of `a` in order with values
overridden by `b` where present, then keys of `b` not in `a` in order. -/
def jsSpread (a b : Record) : Record :=
  a.map (fun p => match alookup b p.1 with | some w => (p.1, w) | none => p)
    ++ b.filter (fun q => (alookup a q.1).isNone)

/-- Field-by-field encoding of a record for storage. -/
def encodeRecord (r : Record) : Hash := r.map (fun p => (p.1, encodeVal p.2))

/-- Field-by-field decoding of a stored hash. -/
def decodeRecord (h : Hash) : Record := h.map (fun p => (p.1, decodeVal p.2))

/-! ## The Redis backend

One keyspace; a key holds a string value or a hash.  Semantics follow
the Redis command documentation: `SET` overwrites a key of any type,
`GET`/`HGETALL`/`HSET`/`HDEL` raise WRONGTYPE on a key of the other
type, `HSET` and `HDEL` require at least one field argument and are
rejected with a wrong-number-of-arguments error otherwise (ioredis
forwards `client.hdel(key)` with no fields verbatim), and a hash whose
last field is removed ceases to exist. -/

/-- A stored Redis value. -/
inductive RVal where
  | str (s : String) : RVal
  | hash (h : Hash) : RVal
deriving DecidableEq

/-- A Redis error reply. -/
inductive RErr where
  | wrongType : RErr
  | wrongArity : RErr
deriving DecidableEq

/-- The backend state. -/
def Store : Type := String → Option RVal

/-- Point update of the keyspace. -/
def upd (S : Store) (k : String) (v : Option RVal) : Store :=
  fun k' => if k' = k then v else S k'

/-- The empty keyspace. -/
def emptyStore : Store := fun _ => none

/-- `GET key`. -/
def rget (S : Store) (k : String) : Except RErr (Option String) :=
  match S k with
  | none => .ok none
  | some (.str v) => .ok (some v)
  | some (.hash _) => .error .wrongType

/-- `SET key value`. -/
def rset (S : Store) (k v : String) : Store := upd S k (some (.str v))

/-- `DEL key...`. -/
def rdel (S : Store) (ks : List String) : Store :=
  ks.foldl (fun s k => upd s k none) S

/-- `HGETALL key` (an absent key reads as the empty field map). -/
def rhgetall (S : Store) (k : String) : Except RErr Hash :=
  match S k with
  | none => .ok []
  | some (.hash h) => .ok h
  | some (.str _) => .error .wrongType

/-- Sets one field of a field map (in place when present, appended
otherwise). -/
def setHField (h : Hash) (f v : String) : Hash :=
  if (alookup h f).isSome then h.map (fun p => if p.1 = f then (f, v) else p)
  else h ++ [(f, v)]

/-- Merges a field list into a field map, later entries winning. -/
def hsetMerge (h : Hash) (fs : Hash) : Hash :=
  fs.foldl (fun acc p => setHField acc p.1 p.2) h

/-- `HSET key field value ...`. -/
def rhset (S : Store) (k : String) (fs : Hash) : Except RErr Store :=
  if fs.isEmpty then .error .wrongArity
  else
    match S k with
    | some (.str _) => .error .wrongType
    | some (.hash h) => .ok (upd S k (some (.hash (hsetMerge h fs))))
    | none => .ok (upd S k (some (.hash (hsetMerge [] fs))))

/-- `HDEL key field ...`. -/
def rhdel (S : Store) (k : String) (fs : List String) : Except RErr Store :=
  if fs.isEmpty then .error .wrongArity
  else
    match S k with
    | none => .ok S
    | some (.str _) => .error .wrongType
    | some (.hash h) =>
      let h' := h.filter (fun p => !(fs.contains p.1))
      .ok (upd S k (if h'.isEmpty then none else some (.hash h')))

/-! ## Key builders (src/lib/IORedisAdapter.ts:57-67)

The key builders are modelled at the default configuration
(`baseKeyPrefix` empty and the seven default kind markers); no claim
touches the configuration surface. -/

def getUserKey (userId : String) : String := "user:" ++ userId

def getUserByEmailKey (email : String) : String := "user:email:" ++ email

def getAccountKey (accountId : String) : String := "account:" ++ accountId

def getAccountByUserIdKey (userId : String) : String := "account:user:" ++ userId

def getAccountId (providerAccountId provider : String) : String :=
  provider ++ ":" ++ providerAccountId

def getSessionKey (sessionId : String) : String := "session:" ++ sessionId

def getSessionByUserIdKey (userId : String) : String := "session:user:" ++ userId

def getVerificationKey (tokenId : String) : String := "verification:" ++ tokenId

/-! ## Hash persistence helpers (src/lib/IORedisAdapter.ts:69-85) -/

/-- `setObjectAsHash`: encode every field (`Date` → ISO string) and
`HSET` the result. -/
def setObjectAsHash (key : String) (object : Record) (S : Store) : Except RErr Store :=
  rhset S key (encodeRecord object)

/-- `loadObjectFromHash`: `HGETALL`, `null` on an empty result, else
decode every field (ISO-shaped value → `Date`). -/
def loadObjectFromHash (key : String) (S : Store) : Except RErr (Option Record) :=
  match rhgetall S key with
  | .error e => .error e
  | .ok object => if object.isEmpty then .ok none else .ok (some (decodeRecord object))

/-! ## Entity helpers (src/lib/IORedisAdapter.ts:87-160) -/

/-- `setUser`: persist the user hash, then point the email index at the
id when the record has a truthy email. -/
def setUser (id : String) (user : Record) (S : Store) : Except RErr (Record × Store) :=
  match setObjectAsHash (getUserKey id) user S with
  | .error e => .error e
  | .ok S1 =>
    match getField user "email" with
    | some v =>
      if truthyVal v then .ok (user, rset S1 (getUserByEmailKey (jsToString v)) id)
      else .ok (user, S1)
    | none => .ok (user, S1)

/-- `getUser` (the `{...user}` copy is the identity on the record). -/
def getUser (id : String) (S : Store) : Except RErr (Option Record) :=
  loadObjectFromHash (getUserKey id) S

/-- `setAccount`: persist the account hash, then point the by-user index
at the account key. -/
def setAccount (id : String) (account : Record) (S : Store) : Except RErr (Record × Store) :=
  match setObjectAsHash (getAccountKey id) account S with
  | .error e => .error e
  | .ok S1 =>
    .ok (account, rset S1 (getAccountByUserIdKey (fieldString account "userId")) (getAccountKey id))

/-- `getAccount`. -/
def getAccount (id : String) (S : Store) : Except RErr (Option Record) :=
  loadObjectFromHash (getAccountKey id) S

/-- `deleteAccount`: read the account, then `client.hdel(key)` — with no
field arguments — then delete the by-user pointer. -/
def deleteAccount (id : String) (S : Store) : Except RErr (Unit × Store) :=
  match loadObjectFromHash (getAccountKey id) S with
  | .error e => .error e
  | .ok none => .ok ((), S)
  | .ok (some account) =>
    match rhdel S (getAccountKey id) [] with
    | .error e => .error e
    | .ok S1 => .ok ((), rdel S1 [getAccountByUserIdKey (fieldString account "userId")])

/-- `setSession`. -/
def setSession (id : String) (session : Record) (S : Store) : Except RErr (Record × Store) :=
  match setObjectAsHash (getSessionKey id) session S with
  | .error e => .error e
  | .ok S1 =>
    .ok (session, rset S1 (getSessionByUserIdKey (fieldString session "userId")) (getSessionKey id))

/-- `getSession`: the result is `{id: session.id, ...session}`. -/
def getSession (id : String) (S : Store) : Except RErr (Option Record) :=
  match loadObjectFromHash (getSessionKey id) S with
  | .error e => .error e
  | .ok none => .ok none
  | .ok (some session) => .ok (some (withFieldFirst "id" session))

/-- `deleteSession`: read the session, `DEL` the session key, `DEL` the
by-user pointer. -/
def deleteSession (sessionToken : String) (S : Store) : Except RErr (Unit × Store) :=
  match getSession sessionToken S with
  | .error e => .error e
  | .ok none => .ok ((), S)
  | .ok (some session) =>
    .ok ((), rdel (rdel S [getSessionKey sessionToken])
      [getSessionByUserIdKey (fieldString session "userId")])

/-- `setVerificationToken`. -/
def setVerificationToken (id : String) (token : Record) (S : Store) :
    Except RErr (Record × Store) :=
  match setObjectAsHash (getVerificationKey id) token S with
  | .error e => .error e
  | .ok S1 => .ok (token, S1)

/-- `getVerificationToken`: the result is
`{identifier: token.identifier, ...token}`. -/
def getVerificationToken (id : String) (S : Store) : Except RErr (Option Record) :=
  match loadObjectFromHash (getVerificationKey id) S with
  | .error e => .error e
  | .ok none => .ok none
  | .ok (some token) => .ok (some (withFieldFirst "identifier" token))

/-- `deleteVerificationToken`: unconditional `DEL`. -/
def deleteVerificationToken (id : String) (S : Store) : Except RErr (Unit × Store) :=
  .ok ((), rdel S [getVerificationKey id])

/-! ## The adapter surface (src/lib/IORedisAdapter.ts:162-240) -/

/-- `createUser`: `uuid()` is an external source of fresh identifiers,
modelled as the explicit argument `genId`; the record is persisted as
`{...user, id}`. -/
def createUser (genId : String) (user : Record) (S : Store) : Except RErr (Record × Store) :=
  setUser genId (jsSpread user [("id", Val.str genId)]) S

/-- `getUserByEmail`: follow the email pointer (a falsy — absent or
empty — pointer value yields not-found), then read the user. -/
def getUserByEmail (email : String) (S : Store) : Except RErr (Option Record) :=
  match rget S (getUserByEmailKey email) with
  | .error e => .error e
  | .ok none => .ok none
  | .ok (some userId) => if strTruthy userId then getUser userId S else .ok none

/-- `updateUser`: read the user by `updates.id`, spread the updates over
it (a missing user spreads as the empty record), persist via `setUser`. -/
def updateUser (updates : Record) (S : Store) : Except RErr (Record × Store) :=
  let userId := fieldString updates "id"
  match getUser userId S with
  | .error e => .error e
  | .ok u => setUser userId (jsSpread (u.getD []) updates) S

/-- `deleteUser`: read the user, read both by-user pointers, `DEL` the
email pointer and the two by-user pointers, `DEL` the pointed-to session
and account keys when the pointers were truthy, `DEL` the user key. -/
def deleteUser (userId : String) (S : Store) : Except RErr (Unit × Store) :=
  match getUser userId S with
  | .error e => .error e
  | .ok none => .ok ((), S)
  | .ok (some user) =>
    match rget S (getAccountByUserIdKey userId) with
    | .error e => .error e
    | .ok accountKey =>
      match rget S (getSessionByUserIdKey userId) with
      | .error e => .error e
      | .ok sessionKey =>
        let S1 := rdel S [getUserByEmailKey (fieldString user "email"),
          getAccountByUserIdKey userId, getSessionByUserIdKey userId]
        let S2 := match sessionKey with
          | some sk => if strTruthy sk then rdel S1 [sk] else S1
          | none => S1
        let S3 := match accountKey with
          | some ak => if strTruthy ak then rdel S2 [ak] else S2
          | none => S2
        .ok ((), rdel S3 [getUserKey userId])

/-- `linkAccount`: derive the id from (provider, providerAccountId) and
persist `{...account, id}`. -/
def linkAccount (account : Record) (S : Store) : Except RErr (Record × Store) :=
  let id := getAccountId (fieldString account "providerAccountId") (fieldString account "provider")
  setAccount id (jsSpread account [("id", Val.str id)]) S

/-- `unlinkAccount`. -/
def unlinkAccount (providerAccountId provider : String) (S : Store) :
    Except RErr (Unit × Store) :=
  deleteAccount (getAccountId providerAccountId provider) S

/-- `createSession`: the id is the caller-supplied session token. -/
def createSession (session : Record) (S : Store) : Except RErr (Record × Store) :=
  setSession (fieldString session "sessionToken")
    (jsSpread session [("id", (getField session "sessionToken").getD Val.undefined)]) S

/-- `getSessionAndUser`. -/
def getSessionAndUser (sessionToken : String) (S : Store) :
    Except RErr (Option (Record × Record)) :=
  match getSession sessionToken S with
  | .error e => .error e
  | .ok none => .ok none
  | .ok (some session) =>
    match getUser (fieldString session "userId") S with
    | .error e => .error e
    | .ok none => .ok none
    | .ok (some user) => .ok (some (session, user))

/-- `updateSession`: read the session by `updates.sessionToken`; when it
is absent return not-found without writing, else spread the updates over
it and persist via `setSession`. -/
def updateSession (updates : Record) (S : Store) : Except RErr (Option Record × Store) :=
  let id := fieldString updates "sessionToken"
  match getSession id S with
  | .error e => .error e
  | .ok none => .ok (none, S)
  | .ok (some session) =>
    match setSession id (jsSpread session updates) S with
    | .error e => .error e
    | .ok (r, S1) => .ok (some r, S1)

/-- `createVerificationToken`: the id is the identifier. -/
def createVerificationToken (verificationToken : Record) (S : Store) :
    Except RErr (Record × Store) :=
  match setVerificationToken (fieldString verificationToken "identifier") verificationToken S with
  | .error e => .error e
  | .ok (_, S1) => .ok (verificationToken, S1)

/-- `useVerificationToken`: read by identifier; absent or a token value
that is not strictly equal to the presented one returns not-found with
no side effect; otherwise delete the hash and return the record. -/
def useVerificationToken (verificationToken : Record) (S : Store) :
    Except RErr (Option Record × Store) :=
  let id := fieldString verificationToken "identifier"
  match getVerificationToken id S with
  | .error e => .error e
  | .ok none => .ok (none, S)
  | .ok (some token) =>
    if jsStrictEqOpt (getField verificationToken "token") (getField token "token") then
      match deleteVerificationToken id S with
      | .error e => .error e
      | .ok ((), S1) => .ok (some token, S1)
    else .ok (none, S)

/-! ## Concrete example data (used by witnesses and counterexamples) -/

/-- A stored user hash. -/
def exUserHash : Hash := [("id", "u1"), ("email", "a@x.com"), ("name", "Adam")]

/-- A store holding only the user `u1`. -/
def exStoreUser : Store := fun k => if k = "user:u1" then some (.hash exUserHash) else none

/-- An account record as supplied to `linkAccount`. -/
def exAccount : Record :=
  [("provider", Val.str "github"), ("providerAccountId", Val.str "42"),
   ("userId", Val.str "u1"), ("type", Val.str "oauth")]

/-- A session record as supplied to `createSession` (expires 2030-01-01). -/
def exSession : Record :=
  [("sessionToken", Val.str "tok1"), ("userId", Val.str "u1"),
   ("expires", Val.date 1893456000000)]

/-- A store holding the account `github:42` of user `u1` and its by-user
pointer. -/
def exStoreAccount : Store := fun k =>
  if k = "account:github:42" then
    some (.hash [("id", "github:42"), ("userId", "u1"),
      ("provider", "github"), ("providerAccountId", "42")])
  else if k = "account:user:u1" then some (.str "account:github:42")
  else none

/-- A store holding the session `tok1` of user `u1` and its by-user
pointer. -/
def exStoreSession : Store := fun k =>
  if k = "session:tok1" then
    some (.hash [("id", "tok1"), ("sessionToken", "tok1"), ("userId", "u1"),
      ("expires", "2030-01-01T00:00:00.000Z")])
  else if k = "session:user:u1" then some (.str "session:tok1")
  else none

/-- A store holding a verification token whose secret is an ordinary
string. -/
def exStoreVerification : Store := fun k =>
  if k = "verification:a@x.com" then
    some (.hash [("identifier", "a@x.com"), ("token", "tok123"),
      ("expires", "2030-01-01T00:00:00.000Z")])
  else none

/-- A store holding a verification token whose secret happens to be an
ISO-8601 timestamp string. -/
def exStoreVerificationISO : Store := fun k =>
  if k = "verification:a@x.com" then
    some (.hash [("identifier", "a@x.com"), ("token", "2024-01-01T00:00:00.000Z"),
      ("expires", "2030-01-01T00:00:00.000Z")])
  else none

/-- The stored user of the merge-update examples. -/
def exStoreU1 : Store := fun k =>
  if k = "user:1" then some (.hash [("id", "1"), ("name", "A"), ("email", "a@x.com")])
  else none

/-- The stored user of the email re-point example, with its email
pointer. -/
def exStoreU1E : Store := fun k =>
  if k = "user:1" then some (.hash [("id", "1"), ("name", "A"), ("email", "a@x.com")])
  else if k = "user:email:a@x.com" then some (.str "1")
  else none

/-- Is the value a `Date` only if its instant lies in the modelled range
(1970-01-01 up to year 10000)? -/
def valDateInRange : Val → Bool
  | .date i => decide (0 ≤ i ∧ i < (msUpper : Int))
  | _ => true

/-- Are all `Date` fields of a record inside the modelled instant range? -/
def recordDatesInRange (r : Record) : Bool := r.all (fun p => valDateInRange p.2)

/-- Is a stored field value left fixed by a decode-encode round trip?
(True of every value the encoder itself can produce: canonical ISO
strings and strings the detector rejects.) -/
def hashCodecStable (h : Hash) : Bool := h.all (fun p => encodeVal (decodeVal p.2) == p.2)

/-- The record of the codec round-trip witness. -/
def exC1Record : Record := [("name", Val.str "Adam"), ("expires", Val.date 1893456000000)]

/-! # Lemmas -/

/-! ## Digits -/

theorem toNat_digitChar (k : Nat) (hk : k ≤ 9) : (digitChar k).toNat = 48 + k := by
  interval_cases k <;> decide

theorem digitB_digitChar (k : Nat) (hk : k ≤ 9) : digitB (digitChar k) = true := by
  simp only [digitB, toNat_digitChar k hk, Bool.and_eq_true, decide_eq_true_eq]
  omega

theorem val1_digitChar (k : Nat) (hk : k ≤ 9) : val1 (digitChar k) = k := by
  simp only [val1, toNat_digitChar k hk]
  omega

theorem val2_pad (n : Nat) (hn : n ≤ 99) :
    val2 (digitChar (n / 10)) (digitChar (n % 10)) = n := by
  have h1 : n / 10 ≤ 9 := by omega
  have h2 : n % 10 ≤ 9 := by omega
  simp only [val2, val1_digitChar _ h1, val1_digitChar _ h2]
  omega

/-! ## Calendar -/

theorem daysInYearB_ge (leap : Bool) : 365 ≤ daysInYearB leap := by
  cases leap <;> decide

theorem daysInYear_ge (y : Nat) : 365 ≤ daysInYear y := daysInYearB_ge _

theorem daysInMonth_le31 (leap : Bool) (m : Nat) : daysInMonth leap m ≤ 31 := by
  unfold daysInMonth
  split_ifs <;> omega

set_option maxHeartbeats 1000000 in
theorem daysSinceYear0_succ (y : Nat) :
    daysSinceYear0 (y + 1) = daysSinceYear0 y + daysInYear y := by
  simp only [daysSinceYear0, daysInYear, daysInYearB, isLeap]
  split_ifs with h <;>
    simp only [Bool.or_eq_true, Bool.and_eq_true, beq_iff_eq, bne_iff_ne, ne_eq,
      not_or, not_and, not_not] at h <;>
    omega

theorem daysSinceYear0_mono {y z : Nat} (h : y ≤ z) :
    daysSinceYear0 y ≤ daysSinceYear0 z := by
  induction z, h using Nat.le_induction with
  | base => exact Nat.le_refl _
  | succ k hk ih =>
    rw [daysSinceYear0_succ]
    omega

theorem yearOfDaysAux_spec (fuel : Nat) : ∀ (y d : Nat), d ≤ 365 * fuel →
    (yearOfDaysAux fuel y d).2 < daysInYear (yearOfDaysAux fuel y d).1 ∧
    daysSinceYear0 (yearOfDaysAux fuel y d).1 + (yearOfDaysAux fuel y d).2
      = daysSinceYear0 y + d ∧
    y ≤ (yearOfDaysAux fuel y d).1 := by
  induction fuel with
  | zero =>
    intro y d hd
    have h365 := daysInYear_ge y
    show d < daysInYear y ∧ daysSinceYear0 y + d = daysSinceYear0 y + d ∧ y ≤ y
    exact ⟨by omega, rfl, Nat.le_refl y⟩
  | succ f ih =>
    intro y d hd
    simp only [yearOfDaysAux]
    split_ifs with h
    · exact ⟨h, rfl, Nat.le_refl y⟩
    · have h365 := daysInYear_ge y
      obtain ⟨h1, h2, h3⟩ := ih (y + 1) (d - daysInYear y) (by omega)
      rw [daysSinceYear0_succ] at h2
      exact ⟨h1, by omega, by omega⟩

theorem yearOfDays_spec (y d : Nat) :
    (yearOfDays y d).2 < daysInYear (yearOfDays y d).1 ∧
    daysSinceYear0 (yearOfDays y d).1 + (yearOfDays y d).2 = daysSinceYear0 y + d ∧
    y ≤ (yearOfDays y d).1 :=
  yearOfDaysAux_spec (d + 1) y d (by omega)

theorem daysToMonth_succ (leap : Bool) (m : Nat) (hm : 1 ≤ m) :
    daysToMonth leap (m + 1) = daysToMonth leap m + daysInMonth leap m := by
  cases m with
  | zero => omega
  | succ k => rfl

theorem daysToMonth_13 (leap : Bool) : daysToMonth leap 13 = daysInYearB leap := by
  cases leap <;> decide

theorem monthOfDaysAux_spec (fuel : Nat) : ∀ (leap : Bool) (m d : Nat), 1 ≤ m →
    m + fuel = 12 → daysToMonth leap m + d < daysToMonth leap 13 →
    1 ≤ (monthOfDaysAux fuel leap m d).1 ∧ (monthOfDaysAux fuel leap m d).1 ≤ 12 ∧
    (monthOfDaysAux fuel leap m d).2 < daysInMonth leap (monthOfDaysAux fuel leap m d).1 ∧
    daysToMonth leap (monthOfDaysAux fuel leap m d).1 + (monthOfDaysAux fuel leap m d).2
      = daysToMonth leap m + d := by
  induction fuel with
  | zero =>
    intro leap m d h1 h12 hlt
    have hm12 : m = 12 := by omega
    subst hm12
    have h13 : daysToMonth leap 13 = daysToMonth leap 12 + daysInMonth leap 12 :=
      daysToMonth_succ leap 12 (by omega)
    show 1 ≤ 12 ∧ 12 ≤ 12 ∧ d < daysInMonth leap 12 ∧
      daysToMonth leap 12 + d = daysToMonth leap 12 + d
    exact ⟨by omega, by omega, by omega, rfl⟩
  | succ f ih =>
    intro leap m d h1 h12 hlt
    simp only [monthOfDaysAux]
    split_ifs with h
    · exact ⟨h1, by omega, h, rfl⟩
    · have hnext := daysToMonth_succ leap m h1
      obtain ⟨a, b, c, e⟩ := ih leap (m + 1) (d - daysInMonth leap m)
        (by omega) (by omega) (by omega)
      exact ⟨a, b, c, by omega⟩

theorem monthOfDays_spec (leap : Bool) (d : Nat) (hd : d < daysInYearB leap) :
    1 ≤ (monthOfDays leap d).1 ∧ (monthOfDays leap d).1 ≤ 12 ∧
    (monthOfDays leap d).2 < daysInMonth leap (monthOfDays leap d).1 ∧
    daysToMonth leap (monthOfDays leap d).1 + (monthOfDays leap d).2 = d := by
  have h13 := daysToMonth_13 leap
  have hone : daysToMonth leap 1 = 0 := rfl
  have h := monthOfDaysAux_spec 11 leap 1 d (by omega) (by omega) (by omega)
  simp only [monthOfDays]
  exact ⟨h.1, h.2.1, h.2.2.1, by omega⟩

theorem civilFromDays_spec (dayN : Nat) :
    1970 ≤ (civilFromDays dayN).1 ∧
    1 ≤ (civilFromDays dayN).2.1 ∧ (civilFromDays dayN).2.1 ≤ 12 ∧
    1 ≤ (civilFromDays dayN).2.2 ∧
    (civilFromDays dayN).2.2 ≤ daysInMonth (isLeap (civilFromDays dayN).1) (civilFromDays dayN).2.1 ∧
    daysSinceYear0 (civilFromDays dayN).1
      + daysToMonth (isLeap (civilFromDays dayN).1) (civilFromDays dayN).2.1
      + ((civilFromDays dayN).2.2 - 1) = epochDays + dayN := by
  obtain ⟨hy1, hy2, hy3⟩ := yearOfDays_spec 1970 dayN
  have hm := monthOfDays_spec (isLeap (yearOfDays 1970 dayN).1) (yearOfDays 1970 dayN).2
    (by exact hy1)
  simp only [civilFromDays]
  refine ⟨hy3, hm.1, hm.2.1, by omega, by omega, ?_⟩
  have : epochDays = daysSinceYear0 1970 := rfl
  omega

theorem civilFromDays_year_le (dayN : Nat)
    (h : dayN < daysSinceYear0 10000 - epochDays) : (civilFromDays dayN).1 ≤ 9999 := by
  obtain ⟨-, -, -, -, -, heq⟩ := civilFromDays_spec dayN
  by_contra hy
  have hmono : daysSinceYear0 10000 ≤ daysSinceYear0 (civilFromDays dayN).1 :=
    daysSinceYear0_mono (by omega)
  have hep : epochDays ≤ daysSinceYear0 10000 := daysSinceYear0_mono (by omega)
  omega



theorem digitB_Z : digitB 'Z' = false := rfl

theorem parseTZ_Z : parseTZ ['Z'] = some 0 := rfl

theorem parseTimeTail_pad (ss f : Nat) (hss : ss ≤ 99) (hf : f ≤ 999) :
    parseTimeTail (':' :: digitChar (ss / 10) :: digitChar (ss % 10) :: '.' ::
      digitChar (f / 100) :: digitChar (f / 10 % 10) :: digitChar (f % 10) :: 'Z' :: [])
      = some (ss, f, 0) := by
  have hb1 : digitB (digitChar (ss / 10)) = true := digitB_digitChar _ (by omega)
  have hb2 : digitB (digitChar (ss % 10)) = true := digitB_digitChar _ (by omega)
  have hb3 : digitB (digitChar (f / 100)) = true := digitB_digitChar _ (by omega)
  have hb4 : digitB (digitChar (f / 10 % 10)) = true := digitB_digitChar _ (by omega)
  have hb5 : digitB (digitChar (f % 10)) = true := digitB_digitChar _ (by omega)
  have hv2 : val2 (digitChar (ss / 10)) (digitChar (ss % 10)) = ss := val2_pad ss hss
  simp only [parseTimeTail, hb1, hb2, Bool.and_self, List.takeWhile_cons, hb3, hb4, hb5,
    digitB_Z, List.takeWhile_nil, List.dropWhile_cons, List.dropWhile, List.isEmpty,
    parseTZ_Z, hv2, if_true, Bool.false_eq_true, ite_true, ite_false]
  simp only [fracMs, val1_digitChar _ (show f / 100 ≤ 9 by omega),
    val1_digitChar _ (show f / 10 % 10 ≤ 9 by omega),
    val1_digitChar _ (show f % 10 ≤ 9 by omega)]
  have : 100 * (f / 100) + 10 * (f / 10 % 10) + f % 10 = f := by omega
  rw [this]


theorem parseISOChars_print (y mo dy hh mi ss f : Nat)
    (hy : y ≤ 9999) (hmo1 : 1 ≤ mo) (hmo : mo ≤ 12) (hdy1 : 1 ≤ dy)
    (hdy : dy ≤ daysInMonth (isLeap y) mo) (hhh : hh ≤ 23) (hmi : mi ≤ 59)
    (hss : ss ≤ 59) (hf : f ≤ 999) :
    parseISOChars (digitChar (y / 1000) :: digitChar (y / 100 % 10) ::
      digitChar (y / 10 % 10) :: digitChar (y % 10) :: '-' ::
      digitChar (mo / 10) :: digitChar (mo % 10) :: '-' ::
      digitChar (dy / 10) :: digitChar (dy % 10) :: 'T' ::
      digitChar (hh / 10) :: digitChar (hh % 10) :: ':' ::
      digitChar (mi / 10) :: digitChar (mi % 10) :: ':' ::
      digitChar (ss / 10) :: digitChar (ss % 10) :: '.' ::
      digitChar (f / 100) :: digitChar (f / 10 % 10) :: digitChar (f % 10) :: 'Z' :: [])
      = some ((((daysSinceYear0 y + daysToMonth (isLeap y) mo + (dy - 1) : Nat) : Int)
          - (epochDays : Int)) * 86400000
        + (hh : Int) * 3600000 + (mi : Int) * 60000 + (ss : Int) * 1000 + (f : Int)) := by
  have h31 := daysInMonth_le31 (isLeap y) mo
  have hb1 : digitB (digitChar (y / 1000)) = true := digitB_digitChar _ (by omega)
  have hb2 : digitB (digitChar (y / 100 % 10)) = true := digitB_digitChar _ (by omega)
  have hb3 : digitB (digitChar (y / 10 % 10)) = true := digitB_digitChar _ (by omega)
  have hb4 : digitB (digitChar (y % 10)) = true := digitB_digitChar _ (by omega)
  have hb5 : digitB (digitChar (mo / 10)) = true := digitB_digitChar _ (by omega)
  have hb6 : digitB (digitChar (mo % 10)) = true := digitB_digitChar _ (by omega)
  have hb7 : digitB (digitChar (dy / 10)) = true := digitB_digitChar _ (by omega)
  have hb8 : digitB (digitChar (dy % 10)) = true := digitB_digitChar _ (by omega)
  have hb9 : digitB (digitChar (hh / 10)) = true := digitB_digitChar _ (by omega)
  have hb10 : digitB (digitChar (hh % 10)) = true := digitB_digitChar _ (by omega)
  have hb11 : digitB (digitChar (mi / 10)) = true := digitB_digitChar _ (by omega)
  have hb12 : digitB (digitChar (mi % 10)) = true := digitB_digitChar _ (by omega)
  have hvy : 1000 * val1 (digitChar (y / 1000)) + 100 * val1 (digitChar (y / 100 % 10))
      + 10 * val1 (digitChar (y / 10 % 10)) + val1 (digitChar (y % 10)) = y := by
    rw [val1_digitChar _ (show y / 1000 ≤ 9 by omega),
      val1_digitChar _ (show y / 100 % 10 ≤ 9 by omega),
      val1_digitChar _ (show y / 10 % 10 ≤ 9 by omega),
      val1_digitChar _ (show y % 10 ≤ 9 by omega)]
    omega
  have hvmo : val2 (digitChar (mo / 10)) (digitChar (mo % 10)) = mo := val2_pad mo (by omega)
  have hvdy : val2 (digitChar (dy / 10)) (digitChar (dy % 10)) = dy :=
    val2_pad dy (by omega)
  have hvhh : val2 (digitChar (hh / 10)) (digitChar (hh % 10)) = hh := val2_pad hh (by omega)
  have hvmi : val2 (digitChar (mi / 10)) (digitChar (mi % 10)) = mi := val2_pad mi (by omega)
  simp only [parseISOChars, hb1, hb2, hb3, hb4, hb5, hb6, hb7, hb8, hb9, hb10, hb11, hb12,
    Bool.and_self, Bool.true_and, if_true, hvy, hvmo, hvdy, hvhh, hvmi,
    parseTimeTail_pad ss f (by omega) hf]
  simp [hmo1, hmo, hdy1, hdy, hmi, hss, hhh]


theorem parseISO_toISO (ms : Nat) (h : ms < msUpper) :
    parseISOChars (toISOChars ms) = some (ms : Int) := by
  obtain ⟨hy70, hm1, hm12, hd1, hdM, heq⟩ := civilFromDays_spec (ms / 86400000)
  have hy99 : (civilFromDays (ms / 86400000)).1 ≤ 9999 := by
    apply civilFromDays_year_le
    unfold msUpper at h
    omega
  simp only [toISOChars, pad4c, pad2c, pad3c, List.cons_append, List.nil_append]
  rw [parseISOChars_print _ _ _ _ _ _ _ hy99 hm1 hm12 hd1 hdM
    (by omega) (by omega) (by omega) (by omega)]
  simp only [Option.some.injEq]
  rw [heq]
  push_cast
  omega


theorem digitChar01 (k : Nat) (hk : k ≤ 1) :
    (digitChar k == '0' || digitChar k == '1') = true := by
  interval_cases k <;> decide

theorem reA1_print (y mo dy hh mi ss f : Nat)
    (hy : y ≤ 9999) (hmo : mo ≤ 12) (hdy : dy ≤ 31) (hhh : hh ≤ 23) (hmi : mi ≤ 59)
    (hss : ss ≤ 59) (hf : f ≤ 999) :
    reA1 (digitChar (y / 1000) :: digitChar (y / 100 % 10) ::
      digitChar (y / 10 % 10) :: digitChar (y % 10) :: '-' ::
      digitChar (mo / 10) :: digitChar (mo % 10) :: '-' ::
      digitChar (dy / 10) :: digitChar (dy % 10) :: 'T' ::
      digitChar (hh / 10) :: digitChar (hh % 10) :: ':' ::
      digitChar (mi / 10) :: digitChar (mi % 10) :: ':' ::
      digitChar (ss / 10) :: digitChar (ss % 10) :: '.' ::
      digitChar (f / 100) :: digitChar (f / 10 % 10) :: digitChar (f % 10) :: 'Z' :: [])
      = true := by
  have hb1 : digitB (digitChar (y / 1000)) = true := digitB_digitChar _ (by omega)
  have hb2 : digitB (digitChar (y / 100 % 10)) = true := digitB_digitChar _ (by omega)
  have hb3 : digitB (digitChar (y / 10 % 10)) = true := digitB_digitChar _ (by omega)
  have hb4 : digitB (digitChar (y % 10)) = true := digitB_digitChar _ (by omega)
  have hb6 : digitB (digitChar (mo % 10)) = true := digitB_digitChar _ (by omega)
  have hb7 : digitB (digitChar (dy / 10)) = true := digitB_digitChar _ (by omega)
  have hb8 : digitB (digitChar (dy % 10)) = true := digitB_digitChar _ (by omega)
  have hb9 : digitB (digitChar (hh / 10)) = true := digitB_digitChar _ (by omega)
  have hb10 : digitB (digitChar (hh % 10)) = true := digitB_digitChar _ (by omega)
  have hb11 : digitB (digitChar (mi / 10)) = true := digitB_digitChar _ (by omega)
  have hb12 : digitB (digitChar (mi % 10)) = true := digitB_digitChar _ (by omega)
  have hb13 : digitB (digitChar (ss / 10)) = true := digitB_digitChar _ (by omega)
  have hb14 : digitB (digitChar (ss % 10)) = true := digitB_digitChar _ (by omega)
  have hb15 : digitB (digitChar (f / 100)) = true := digitB_digitChar _ (by omega)
  have hb16 : digitB (digitChar (f / 10 % 10)) = true := digitB_digitChar _ (by omega)
  have hb17 : digitB (digitChar (f % 10)) = true := digitB_digitChar _ (by omega)
  have hc01 : (digitChar (mo / 10) == '0' || digitChar (mo / 10) == '1') = true :=
    digitChar01 _ (by omega)
  have ht1 : (digitChar (dy / 10)).toNat ≤ 51 := by
    rw [toNat_digitChar _ (by omega)]; omega
  have ht2 : (digitChar (hh / 10)).toNat ≤ 50 := by
    rw [toNat_digitChar _ (by omega)]; omega
  have ht3 : (digitChar (mi / 10)).toNat ≤ 53 := by
    rw [toNat_digitChar _ (by omega)]; omega
  have ht4 : (digitChar (ss / 10)).toNat ≤ 53 := by
    rw [toNat_digitChar _ (by omega)]; omega
  have hfrac : reFracTail (digitChar (f / 100) :: digitChar (f / 10 % 10) ::
      digitChar (f % 10) :: 'Z' :: []) = true := by
    simp [reFracTail, reAfterDigits, reOffTail, hb15, hb16, hb17, digitB_Z]
  simp [reA1, hb1, hb2, hb3, hb4, hb6, hb7, hb8, hb9, hb10, hb11, hb12, hb13, hb14,
    hc01, ht1, ht2, ht3, ht4, hfrac]

theorem containsISO_toISO (ms : Nat) (h : ms < msUpper) :
    containsISO (toISOChars ms) = true := by
  obtain ⟨hy70, hm1, hm12, hd1, hdM, heq⟩ := civilFromDays_spec (ms / 86400000)
  have hy99 : (civilFromDays (ms / 86400000)).1 ≤ 9999 := by
    apply civilFromDays_year_le
    unfold msUpper at h
    omega
  have h31 := daysInMonth_le31 (isLeap (civilFromDays (ms / 86400000)).1)
    (civilFromDays (ms / 86400000)).2.1
  simp only [toISOChars, pad4c, pad2c, pad3c, List.cons_append, List.nil_append]
  simp only [containsISO, matchesAt]
  rw [reA1_print _ _ _ _ _ _ _ hy99 hm12 (by omega) (by omega) (by omega) (by omega) (by omega)]
  simp


theorem data_toISOString (ms : Nat) : (toISOString ms).data = toISOChars ms := rfl

theorem strTruthy_toISOString (ms : Nat) : strTruthy (toISOString ms) = true := by
  simp [strTruthy, data_toISOString, toISOChars, pad4c, List.cons_append]

theorem parseISO_toISOString (ms : Nat) (h : ms < msUpper) :
    parseISO (toISOString ms) = some (ms : Int) := by
  rw [parseISO, data_toISOString]
  exact parseISO_toISO ms h

theorem isDateB_toISOString (ms : Nat) (h : ms < msUpper) :
    isDateB (toISOString ms) = true := by
  rw [isDateB, strTruthy_toISOString, data_toISOString, containsISO_toISO ms h,
    parseISO_toISOString ms h]
  rfl

theorem decodeVal_toISOString (ms : Nat) (h : ms < msUpper) :
    decodeVal (toISOString ms) = Val.date (ms : Int) := by
  rw [decodeVal, if_pos (isDateB_toISOString ms h), parseISO_toISOString ms h]

theorem decode_encode_date (i : Int) (h0 : 0 ≤ i) (h1 : i < (msUpper : Int)) :
    decodeVal (encodeVal (Val.date i)) = Val.date i := by
  have : encodeVal (Val.date i) = toISOString i.toNat := by
    simp [encodeVal, toISOStringInt, h0, h1]
  rw [this, decodeVal_toISOString i.toNat (by omega), Int.toNat_of_nonneg h0]

theorem decodeVal_of_not_isDate (s : String) (h : isDateB s = false) :
    decodeVal s = Val.str s := by
  simp [decodeVal, h]

theorem encode_decode_str (s : String) (h : isDateB s = false) :
    encodeVal (decodeVal s) = s := by
  rw [decodeVal_of_not_isDate s h, encodeVal]


/-! ## Association lists and records -/

theorem alookup_map_values {α β : Type} (g : α → β) (l : List (String × α)) (k : String) :
    alookup (l.map (fun p => (p.1, g p.2))) k = (alookup l k).map g := by
  induction l with
  | nil => rfl
  | cons p t ih =>
    simp only [List.map_cons, alookup]
    split_ifs with h
    · rfl
    · exact ih

theorem alookup_encodeRecord (r : Record) (f : String) :
    alookup (encodeRecord r) f = (getField r f).map encodeVal :=
  alookup_map_values encodeVal r f

theorem getField_decodeRecord (h : Hash) (f : String) :
    getField (decodeRecord h) f = (alookup h f).map decodeVal :=
  alookup_map_values decodeVal h f

theorem alookup_eq_none_iff {α : Type} (l : List (String × α)) (k : String) :
    alookup l k = none ↔ k ∉ l.map Prod.fst := by
  induction l with
  | nil => simp [alookup]
  | cons p t ih =>
    simp only [alookup, List.map_cons, List.mem_cons]
    split_ifs with h
    · simp [h]
    · rw [ih]
      simp only [not_or]
      constructor
      · intro hn
        exact ⟨fun hh => h hh.symm, hn⟩
      · intro hn
        exact hn.2

theorem alookup_append {α : Type} (l₁ l₂ : List (String × α)) (k : String) :
    alookup (l₁ ++ l₂) k =
      match alookup l₁ k with
      | some v => some v
      | none => alookup l₂ k := by
  induction l₁ with
  | nil => simp [alookup]
  | cons p t ih =>
    simp only [List.cons_append, alookup]
    split_ifs with h
    · rfl
    · exact ih

theorem alookup_spread_map (a b : Record) (k : String) :
    alookup (a.map (fun p => match alookup b p.1 with | some w => (p.1, w) | none => p)) k =
      match alookup a k with
      | some v => some ((alookup b k).getD v)
      | none => none := by
  induction a with
  | nil => rfl
  | cons p t ih =>
    simp only [List.map_cons]
    by_cases h : p.1 = k
    · subst h
      cases hb : alookup b p.1 with
      | none => simp [alookup, hb]
      | some w => simp [alookup, hb]
    · cases hb : alookup b p.1 with
      | none => simp only [hb, alookup, if_neg h, ih]
      | some w => simp only [hb, alookup, if_neg h, ih]

theorem alookup_spread_filter (a b : Record) (k : String) :
    alookup (b.filter (fun q => (alookup a q.1).isNone)) k =
      match alookup a k with
      | some _ => none
      | none => alookup b k := by
  induction b with
  | nil => cases alookup a k <;> rfl
  | cons q t ih =>
    by_cases hq : (alookup a q.1).isNone
    · rw [List.filter_cons_of_pos (by simpa using hq)]
      by_cases h : q.1 = k
      · subst h
        simp only [Option.isNone_iff_eq_none] at hq
        simp [alookup, hq]
      · simp only [alookup, if_neg h, ih]
    · rw [List.filter_cons_of_neg (by simpa using hq)]
      by_cases h : q.1 = k
      · subst h
        simp only [Option.isNone_iff_eq_none] at hq
        obtain ⟨v, hv⟩ := Option.ne_none_iff_exists'.mp hq
        simp [alookup, hv, ih]
      · simp only [alookup, if_neg h] at ih ⊢
        exact ih

theorem getField_jsSpread (a b : Record) (k : String) :
    getField (jsSpread a b) k =
      match getField b k with
      | some v => some v
      | none => getField a k := by
  simp only [getField, jsSpread, alookup_append, alookup_spread_map, alookup_spread_filter]
  cases ha : alookup a k <;> cases hb : alookup b k <;> simp

theorem jsSpread_nil_left (b : Record) : jsSpread [] b = b := by
  simp only [jsSpread, List.map_nil, List.nil_append]
  induction b with
  | nil => rfl
  | cons q t ih => simp [List.filter_cons, alookup, ih]

theorem jsSpread_ne_nil (a b : Record) (hb : b ≠ []) : jsSpread a b ≠ [] := by
  cases a with
  | nil => rw [jsSpread_nil_left]; exact hb
  | cons p t => simp [jsSpread]

theorem encodeRecord_eq_nil_iff (r : Record) : encodeRecord r = [] ↔ r = [] := by
  cases r <;> simp [encodeRecord]

theorem eraseKey_alookup {α : Type} (l : List (String × α)) (f k : String) :
    alookup (eraseKey l f) k = if k = f then none else alookup l k := by
  induction l with
  | nil => simp [eraseKey, alookup]
  | cons p t ih =>
    by_cases hp : p.1 = f
    · rw [eraseKey, List.filter_cons_of_neg (by simp [hp])]
      rw [eraseKey] at ih
      rw [ih]
      split_ifs with h
      · rfl
      · rw [alookup, if_neg (fun hh : p.1 = k => h (hh ▸ hp))]
    · rw [eraseKey, List.filter_cons_of_pos (by simp [hp])]
      rw [alookup]
      by_cases h : p.1 = k
      · rw [if_pos h, if_neg (fun hf : k = f => hp (h.trans hf)), alookup, if_pos h]
      · rw [if_neg h]
        rw [eraseKey] at ih
        rw [ih]
        split_ifs with h2
        · rfl
        · rw [alookup, if_neg h]

theorem getField_withFieldFirst (f : String) (r : Record) (k : String) :
    getField (withFieldFirst f r) k =
      if k = f then some ((getField r f).getD Val.undefined) else getField r k := by
  rw [withFieldFirst]
  cases hf : getField r f with
  | some v =>
    show alookup ((f, v) :: eraseKey r f) k = _
    rw [alookup]
    by_cases h : f = k
    · rw [if_pos h, if_pos h.symm]
      rfl
    · have h' : ¬k = f := fun hh => h hh.symm
      rw [if_neg h, if_neg h']
      show alookup (eraseKey r f) k = alookup r k
      rw [eraseKey_alookup, if_neg h']
  | none =>
    show alookup ((f, Val.undefined) :: r) k = _
    rw [alookup]
    by_cases h : f = k
    · rw [if_pos h, if_pos h.symm]
      rfl
    · have h' : ¬k = f := fun hh => h hh.symm
      rw [if_neg h, if_neg h']
      rfl


theorem alookup_map_overwrite (h : Hash) (f v : String) : ∀ k,
    alookup (h.map (fun p => if p.1 = f then (f, v) else p)) k =
      if k = f then (alookup h f).map (fun _ => v) else alookup h k := by
  induction h with
  | nil => intro k; simp [alookup]
  | cons p t ih =>
    intro k
    by_cases hp : p.1 = f
    · subst hp
      by_cases hk : k = p.1
      · subst hk
        simp [alookup]
      · have hk' : ¬p.1 = k := fun hh => hk hh.symm
        simp [alookup, hk, hk', ih]
    · by_cases hk : k = p.1
      · subst hk
        simp [alookup, hp]
      · have hk' : ¬p.1 = k := fun hh => hk hh.symm
        simp [alookup, hp, hk', ih]

theorem setHField_alookup (h : Hash) (f v : String) (k : String) :
    alookup (setHField h f v) k = if k = f then some v else alookup h k := by
  rw [setHField]
  by_cases hp : (alookup h f).isSome
  · rw [if_pos hp, alookup_map_overwrite]
    obtain ⟨w, hw⟩ := Option.isSome_iff_exists.mp hp
    rw [hw]
    rfl
  · rw [if_neg hp, alookup_append]
    rw [Option.not_isSome_iff_eq_none] at hp
    by_cases hk : k = f
    · subst hk
      rw [hp]
      simp [alookup]
    · have hfk : ¬f = k := fun hh => hk hh.symm
      cases hl : alookup h k
      · rw [if_neg hk]
        simp [alookup, hfk]
      · rw [if_neg hk]

theorem hsetMerge_alookup (fs : Hash) : ∀ (h : Hash), (fs.map Prod.fst).Nodup →
    ∀ k, alookup (hsetMerge h fs) k =
      match alookup fs k with
      | some v => some v
      | none => alookup h k := by
  induction fs with
  | nil => intro h _ k; rfl
  | cons p t ih =>
    intro h hnd k
    simp only [List.map_cons, List.nodup_cons] at hnd
    show alookup (hsetMerge (setHField h p.1 p.2) t) k = _
    rw [ih _ hnd.2 k]
    by_cases hk : p.1 = k
    · have htk : alookup t k = none := by
        rw [alookup_eq_none_iff]
        rw [← hk]
        exact hnd.1
      rw [htk, alookup, if_pos hk, setHField_alookup, if_pos hk.symm]
    · rw [alookup, if_neg hk]
      cases htk : alookup t k
      · rw [setHField_alookup, if_neg (fun hh : k = p.1 => hk hh.symm)]
      · rfl

theorem keys_encodeRecord (r : Record) :
    (encodeRecord r).map Prod.fst = r.map Prod.fst := by
  induction r with
  | nil => rfl
  | cons p t ih => simp [encodeRecord, ih]

theorem keys_spread_map (a b : Record) :
    ((a.map (fun p => match alookup b p.1 with | some w => (p.1, w) | none => p)).map
      Prod.fst) = a.map Prod.fst := by
  induction a with
  | nil => rfl
  | cons p t ih =>
    simp only [List.map_cons, ih]
    cases alookup b p.1 <;> rfl

theorem nodupKeys_jsSpread (a b : Record) (ha : (a.map Prod.fst).Nodup)
    (hb : (b.map Prod.fst).Nodup) : ((jsSpread a b).map Prod.fst).Nodup := by
  rw [jsSpread, List.map_append, keys_spread_map]
  refine List.Nodup.append ha (hb.sublist ((List.filter_sublist b).map Prod.fst)) ?_
  intro x hxa hxb
  obtain ⟨q, hq, hqx⟩ := List.mem_map.mp hxb
  obtain ⟨hqb, hpred⟩ := List.mem_filter.mp hq
  rw [Option.isNone_iff_eq_none] at hpred
  rw [hqx] at hpred
  exact (alookup_eq_none_iff a x).mp hpred hxa

/-! ## Store -/

theorem upd_same (S : Store) (k : String) (v : Option RVal) : upd S k v k = v :=
  if_pos rfl

theorem upd_ne (S : Store) (k : String) (v : Option RVal) (k' : String) (h : k' ≠ k) :
    upd S k v k' = S k' := by
  show (if k' = k then v else S k') = S k'
  simp [h]

theorem upd_self (S : Store) (k : String) : upd S k (S k) = S := by
  funext x
  show (if x = k then S k else S x) = S x
  by_cases h : x = k
  · rw [if_pos h, h]
  · rw [if_neg h]

theorem rdel_one (S : Store) (k : String) : rdel S [k] = upd S k none := rfl


theorem alookup_mem {α : Type} {l : List (String × α)} {k : String} {v : α}
    (h : alookup l k = some v) : (k, v) ∈ l := by
  induction l with
  | nil => simp [alookup] at h
  | cons p t ih =>
    rw [alookup] at h
    split_ifs at h with hp
    · have hv : p.2 = v := Option.some_injective _ h
      rw [List.mem_cons]
      left
      rw [← hp, ← hv]
    · right
      exact ih h


/-- C1: for every entity record whose fields are strings or timestamps
(with the instants in the modelled range and JS-object-like distinct
field names), storing it with `setObjectAsHash` on a fresh key and
reading it back with `loadObjectFromHash` yields a record in which every
timestamp field denotes exactly the original instant. -/
theorem C1_codec_roundtrip (key : String) (r : Record) (S0 : Store)
    (hne : r ≠ []) (hnd : (r.map Prod.fst).Nodup) (hfresh : S0 key = none)
    (hrange : recordDatesInRange r = true) :
    ∃ S1, setObjectAsHash key r S0 = .ok S1 ∧
      ∃ dec, loadObjectFromHash key S1 = .ok (some dec) ∧
        ∀ f i, getField r f = some (.date i) → getField dec f = some (.date i) := by
  have hencne : encodeRecord r ≠ [] := fun hh => hne ((encodeRecord_eq_nil_iff r).mp hh)
  have hemp : (encodeRecord r).isEmpty = false := by
    cases henc : encodeRecord r
    · exact absurd henc hencne
    · rfl
  have hstep : setObjectAsHash key r S0 =
      .ok (upd S0 key (some (.hash (hsetMerge [] (encodeRecord r))))) := by
    rw [setObjectAsHash, rhset, hemp, hfresh]
    rfl
  refine ⟨_, hstep, ?_⟩
  set H := hsetMerge [] (encodeRecord r) with hH
  have hndH : ((encodeRecord r).map Prod.fst).Nodup := by
    rw [keys_encodeRecord]
    exact hnd
  have hlookH : ∀ f, alookup H f = (getField r f).map encodeVal := by
    intro f
    rw [hH, hsetMerge_alookup _ _ hndH f, alookup_encodeRecord]
    cases getField r f <;> rfl
  have hHne : H.isEmpty = false := by
    obtain ⟨p, t, rfl⟩ : ∃ p t, r = p :: t := by
      cases r with
      | nil => exact absurd rfl hne
      | cons p t => exact ⟨p, t, rfl⟩
    have := hlookH p.1
    rw [show getField (p :: t) p.1 = some p.2 from if_pos rfl] at this
    cases hHc : H with
    | nil => rw [hHc] at this; simp [alookup] at this
    | cons q u => rfl
  have hload : loadObjectFromHash key (upd S0 key (some (.hash H))) =
      .ok (some (decodeRecord H)) := by
    rw [loadObjectFromHash, rhgetall, upd_same]
    simp [hHne]
  refine ⟨_, hload, ?_⟩
  intro f i hf
  rw [getField_decodeRecord, hlookH f, hf]
  have hmem := alookup_mem hf
  have hok : valDateInRange (Val.date i) = true := by
    have := (List.all_eq_true.mp hrange) _ hmem
    exact this
  rw [valDateInRange, decide_eq_true_eq] at hok
  show some (decodeVal (encodeVal (Val.date i))) = some (Val.date i)
  rw [decode_encode_date i hok.1 hok.2]


/-- Witness for C1 at a concrete record with a string and a timestamp
field. -/
theorem C1_codec_roundtrip_witness :
    (exC1Record ≠ [] ∧ (exC1Record.map Prod.fst).Nodup ∧ emptyStore "user:u9" = none ∧
      recordDatesInRange exC1Record = true) ∧
    (∃ S1, setObjectAsHash "user:u9" exC1Record emptyStore = .ok S1 ∧
      ∃ dec, loadObjectFromHash "user:u9" S1 = .ok (some dec) ∧
        ∀ f i, getField exC1Record f = some (.date i) → getField dec f = some (.date i)) :=
  ⟨⟨by decide, by decide, rfl, by decide⟩,
    C1_codec_roundtrip "user:u9" exC1Record emptyStore (by decide) (by decide) rfl (by decide)⟩


theorem upd_upd_same (S : Store) (k : String) (v w : Option RVal) :
    upd (upd S k v) k w = upd S k w := by
  funext x
  by_cases h : x = k
  · rw [upd, if_pos h, upd, if_pos h]
  · rw [upd, if_neg h, upd, if_neg h, upd, if_neg h]

/-- C2: `unlinkAccount` on an existing account issues `HDEL` with the key
and no field arguments, which Redis rejects with a wrong-number-of-
arguments error: the operation raises an error and deletes neither the
account hash nor the by-user pointer.  Only the no-account path is the
claimed no-op. -/
theorem C2_unlinkAccount_hdel_bug :
    unlinkAccount "42" "github" exStoreAccount = .error .wrongArity ∧
    unlinkAccount "42" "github" emptyStore = .ok ((), emptyStore) ∧
    exStoreAccount (getAccountKey (getAccountId "42" "github")) ≠ none :=
  ⟨rfl, rfl, by decide⟩

/-- C8: deleting twice is a not-found no-op on the second call for
`deleteSession`, `deleteVerificationToken` and `deleteUser`; for
`unlinkAccount` even the first call on an existing account raises the
HDEL wrong-number-of-arguments error instead of deleting. -/
theorem C8_delete_twice :
    (∃ S1, deleteSession "tok1" exStoreSession = .ok ((), S1) ∧
      deleteSession "tok1" S1 = .ok ((), S1)) ∧
    (∃ S1, deleteVerificationToken "a@x.com" exStoreVerification = .ok ((), S1) ∧
      deleteVerificationToken "a@x.com" S1 = .ok ((), S1)) ∧
    (∃ S1, deleteUser "u1" exStoreUser = .ok ((), S1) ∧
      deleteUser "u1" S1 = .ok ((), S1)) ∧
    unlinkAccount "42" "github" exStoreAccount = .error .wrongArity := by
  refine ⟨⟨_, rfl, rfl⟩, ⟨rdel exStoreVerification ["verification:a@x.com"], rfl, ?_⟩,
    ⟨_, rfl, rfl⟩, rfl⟩
  show Except.ok ((), rdel (rdel exStoreVerification ["verification:a@x.com"])
      ["verification:a@x.com"]) =
    Except.ok ((), rdel exStoreVerification ["verification:a@x.com"])
  simp only [rdel_one, upd_upd_same]


/-- C3 counterexample: a stored verification token whose stored `token`
value is byte-for-byte the presented token, but happens to be an
ISO-8601 timestamp string; the decoder turns it into a `Date`, strict
equality with the presented string fails, and the call returns not-found
without consuming — the claim promises deletion and the consumed
record. -/
theorem C3_counterexample :
    exStoreVerificationISO "verification:a@x.com" =
      some (.hash [("identifier", "a@x.com"), ("token", "2024-01-01T00:00:00.000Z"),
        ("expires", "2030-01-01T00:00:00.000Z")]) ∧
    useVerificationToken
      [("identifier", Val.str "a@x.com"), ("token", Val.str "2024-01-01T00:00:00.000Z")]
      exStoreVerificationISO = .ok (none, exStoreVerificationISO) :=
  ⟨rfl, rfl⟩

/-- C3 (amended): `useVerificationToken` returns not-found without
changing state when the token is absent or when the presented token is
not strictly equal to the decoded stored token; when the stored token
value equals the presented string and is not itself ISO-timestamp-shaped
(so the codec returns it as a string), the call deletes the hash and
returns the consumed record, and a repeated call returns not-found. -/
theorem C3_single_use (vt : Record) (S0 : Store) :
    (S0 (getVerificationKey (fieldString vt "identifier")) = none →
      useVerificationToken vt S0 = .ok (none, S0)) ∧
    (∀ H, S0 (getVerificationKey (fieldString vt "identifier")) = some (.hash H) → H ≠ [] →
      jsStrictEqOpt (getField vt "token")
        (getField (withFieldFirst "identifier" (decodeRecord H)) "token") = false →
      useVerificationToken vt S0 = .ok (none, S0)) ∧
    (∀ H t, S0 (getVerificationKey (fieldString vt "identifier")) = some (.hash H) →
      H ≠ [] → alookup H "token" = some t → getField vt "token" = some (Val.str t) →
      isDateB t = false →
      useVerificationToken vt S0 =
        .ok (some (withFieldFirst "identifier" (decodeRecord H)),
          upd S0 (getVerificationKey (fieldString vt "identifier")) none) ∧
      useVerificationToken vt
          (upd S0 (getVerificationKey (fieldString vt "identifier")) none) =
        .ok (none, upd S0 (getVerificationKey (fieldString vt "identifier")) none)) := by
  refine ⟨?_, ?_, ?_⟩
  · intro habs
    rw [useVerificationToken, getVerificationToken, loadObjectFromHash, rhgetall, habs]
    rfl
  · intro H hH hne hneq
    have hemp : H.isEmpty = false := by
      cases H
      · exact absurd rfl hne
      · rfl
    rw [useVerificationToken, getVerificationToken, loadObjectFromHash, rhgetall, hH]
    simp only [hemp, Bool.false_eq_true, if_false, hneq]
  · intro H t hH hne htok hvt hdate
    have hemp : H.isEmpty = false := by
      cases H
      · exact absurd rfl hne
      · rfl
    have hdec : getField (withFieldFirst "identifier" (decodeRecord H)) "token" =
        some (Val.str t) := by
      rw [getField_withFieldFirst, if_neg (by decide : ¬("token" : String) = "identifier"),
        getField_decodeRecord, htok, Option.map_some', decodeVal_of_not_isDate t hdate]
    have hstrict : jsStrictEqOpt (getField vt "token")
        (getField (withFieldFirst "identifier" (decodeRecord H)) "token") = true := by
      rw [hvt, hdec]
      simp [jsStrictEqOpt, jsStrictEqV]
    constructor
    · rw [useVerificationToken, getVerificationToken, loadObjectFromHash, rhgetall, hH]
      simp only [hemp, Bool.false_eq_true, if_false, hstrict, if_true,
        deleteVerificationToken, rdel_one]
    · rw [useVerificationToken, getVerificationToken, loadObjectFromHash, rhgetall, upd_same]
      rfl


/-- Witness for C3 (amended) at a concrete stored token: consumed once,
not-found on the second call. -/
theorem C3_single_use_witness :
    (exStoreVerification "verification:a@x.com" =
        some (.hash [("identifier", "a@x.com"), ("token", "tok123"),
          ("expires", "2030-01-01T00:00:00.000Z")]) ∧
      isDateB "tok123" = false) ∧
    (useVerificationToken [("identifier", Val.str "a@x.com"), ("token", Val.str "tok123")]
        exStoreVerification =
      .ok (some (withFieldFirst "identifier" (decodeRecord
          [("identifier", "a@x.com"), ("token", "tok123"),
            ("expires", "2030-01-01T00:00:00.000Z")])),
        upd exStoreVerification "verification:a@x.com" none) ∧
      useVerificationToken [("identifier", Val.str "a@x.com"), ("token", Val.str "tok123")]
        (upd exStoreVerification "verification:a@x.com" none) =
      .ok (none, upd exStoreVerification "verification:a@x.com" none)) :=
  ⟨⟨rfl, by decide⟩,
    (C3_single_use [("identifier", Val.str "a@x.com"), ("token", Val.str "tok123")]
      exStoreVerification).2.2
      [("identifier", "a@x.com"), ("token", "tok123"),
        ("expires", "2030-01-01T00:00:00.000Z")] "tok123"
      rfl (by decide) rfl rfl (by decide)⟩


/-- C7: after `createUser` persists a user with an email under a fresh
generated id, `getUserByEmail` with that email returns exactly what
`getUser` returns for the new id, and that is a found record
(happy path, no interleaving; `uuid()` is the supplied fresh id). -/
theorem C7_email_index (gid e : String) (user : Record) (S0 : Store)
    (hnd : (user.map Prod.fst).Nodup)
    (hemail : getField user "email" = some (Val.str e)) (he : strTruthy e = true)
    (hgid : strTruthy gid = true)
    (hfresh : S0 (getUserKey gid) = none)
    (hkne : getUserByEmailKey e ≠ getUserKey gid) :
    ∃ r S1, createUser gid user S0 = .ok (r, S1) ∧
      getUserByEmail e S1 = getUser gid S1 ∧
      ∃ ur, getUser gid S1 = .ok (some ur) := by
  set u' := jsSpread user [("id", Val.str gid)] with hu'
  have hem0 : getField [("id", Val.str gid)] "email" = none := rfl
  have hid0 : getField [("id", Val.str gid)] "id" = some (Val.str gid) := rfl
  have hu'email : getField u' "email" = some (Val.str e) := by
    rw [hu', getField_jsSpread, hem0]
    exact hemail
  have hu'id : getField u' "id" = some (Val.str gid) := by
    rw [hu', getField_jsSpread, hid0]
  have hu'ne : u' ≠ [] := jsSpread_ne_nil _ _ (List.cons_ne_nil _ _)
  have hencne : (encodeRecord u').isEmpty = false := by
    cases hc : encodeRecord u'
    · exact absurd ((encodeRecord_eq_nil_iff u').mp hc) hu'ne
    · rfl
  have hstep1 : setObjectAsHash (getUserKey gid) u' S0 =
      .ok (upd S0 (getUserKey gid)
        (some (RVal.hash (hsetMerge [] (encodeRecord u'))))) := by
    rw [setObjectAsHash, rhset, hencne, hfresh]
    rfl
  set H := hsetMerge [] (encodeRecord u') with hH
  set S2 := upd (upd S0 (getUserKey gid) (some (RVal.hash H))) (getUserByEmailKey e)
    (some (RVal.str gid)) with hS2
  have hcreate : createUser gid user S0 = .ok (u', S2) := by
    rw [createUser]
    rw [show setUser gid u' S0 = .ok (u', S2) from ?_]
    rw [setUser, hstep1, hu'email]
    simp only [truthyVal, he, if_true]
    rfl
  have hndH : ((encodeRecord u').map Prod.fst).Nodup := by
    rw [keys_encodeRecord]
    exact nodupKeys_jsSpread user _ hnd (by simp)
  have hS2user : S2 (getUserKey gid) = some (RVal.hash H) := by
    rw [hS2, upd_ne _ _ _ _ (fun hh => hkne hh.symm), upd_same]
  have hlookid : alookup H "id" = some (encodeVal (Val.str gid)) := by
    rw [hH, hsetMerge_alookup _ _ hndH, alookup_encodeRecord, hu'id]
    rfl
  have hHne : H.isEmpty = false := by
    cases hc : H
    · rw [hc] at hlookid
      simp [alookup] at hlookid
    · rfl
  have hgetU : getUser gid S2 = .ok (some (decodeRecord H)) := by
    rw [getUser, loadObjectFromHash, rhgetall, hS2user]
    simp [hHne]
  have hS2em : S2 (getUserByEmailKey e) = some (RVal.str gid) := by
    rw [hS2, upd_same]
  have hgetE : getUserByEmail e S2 = getUser gid S2 := by
    rw [getUserByEmail, rget, hS2em]
    show (if strTruthy gid = true then getUser gid S2 else Except.ok none) = getUser gid S2
    rw [hgid]
    exact if_pos rfl
  exact ⟨u', S2, hcreate, hgetE, decodeRecord H, hgetU⟩


/-- Witness for C7 at a concrete user record and fresh id. -/
theorem C7_email_index_witness :
    ((([("email", Val.str "a@x.com"), ("name", Val.str "A")] : Record).map Prod.fst).Nodup ∧
      getField [("email", Val.str "a@x.com"), ("name", Val.str "A")] "email" =
        some (Val.str "a@x.com") ∧
      strTruthy "a@x.com" = true ∧ strTruthy "u9" = true ∧
      emptyStore (getUserKey "u9") = none ∧
      getUserByEmailKey "a@x.com" ≠ getUserKey "u9") ∧
    (∃ r S1, createUser "u9" [("email", Val.str "a@x.com"), ("name", Val.str "A")] emptyStore
        = .ok (r, S1) ∧
      getUserByEmail "a@x.com" S1 = getUser "u9" S1 ∧
      ∃ ur, getUser "u9" S1 = .ok (some ur)) :=
  ⟨⟨by decide, rfl, by decide, by decide, rfl, by decide⟩,
    C7_email_index "u9" "a@x.com" [("email", Val.str "a@x.com"), ("name", Val.str "A")]
      emptyStore (by decide) rfl (by decide) (by decide) rfl (by decide)⟩


theorem keys_decodeRecord (h : Hash) :
    (decodeRecord h).map Prod.fst = h.map Prod.fst := by
  induction h with
  | nil => rfl
  | cons p t ih => simp [decodeRecord, ih]

theorem decodeRecord_ne_nil (h : Hash) (hne : h ≠ []) : decodeRecord h ≠ [] := by
  cases h
  · exact absurd rfl hne
  · simp [decodeRecord]

theorem jsSpread_ne_nil_left (a b : Record) (ha : a ≠ []) : jsSpread a b ≠ [] := by
  cases a
  · exact absurd rfl ha
  · simp [jsSpread]

/-- C5: `updateUser` reads the stored user, spreads the supplied fields
over it, returns the merged record (supplied fields win, unnamed fields
keep their stored value) and persists it: the stored hash afterwards has
the encoded supplied value at every supplied field and is unchanged at
every field the update does not name. -/
theorem C5_updateUser_merge (uid : String) (H : Hash) (u : Record) (S0 : Store)
    (hndH : (H.map Prod.fst).Nodup) (hndU : (u.map Prod.fst).Nodup)
    (hstored : S0 (getUserKey uid) = some (RVal.hash H)) (hHne : H ≠ [])
    (hid : getField u "id" = some (Val.str uid))
    (hstable : hashCodecStable H = true)
    (hek : getUserByEmailKey (fieldString (jsSpread (decodeRecord H) u) "email")
      ≠ getUserKey uid) :
    ∃ S1, updateUser u S0 = .ok (jsSpread (decodeRecord H) u, S1) ∧
      (∀ f, getField (jsSpread (decodeRecord H) u) f =
        match getField u f with
        | some v => some v
        | none => getField (decodeRecord H) f) ∧
      S1 (getUserKey uid) =
        some (RVal.hash (hsetMerge H (encodeRecord (jsSpread (decodeRecord H) u)))) ∧
      (∀ f, getField u f = none →
        alookup (hsetMerge H (encodeRecord (jsSpread (decodeRecord H) u))) f =
          alookup H f) ∧
      (∀ f v, getField u f = some v →
        alookup (hsetMerge H (encodeRecord (jsSpread (decodeRecord H) u))) f =
          some (encodeVal v)) := by
  set M := jsSpread (decodeRecord H) u with hM
  have hempH : H.isEmpty = false := by
    cases H
    · exact absurd rfl hHne
    · rfl
  have huid : fieldString u "id" = uid := by
    rw [fieldString, hid]
    rfl
  have hgetu : getUser uid S0 = .ok (some (decodeRecord H)) := by
    rw [getUser, loadObjectFromHash, rhgetall, hstored]
    simp [hempH]
  have hMne : M ≠ [] :=
    jsSpread_ne_nil_left _ _ (decodeRecord_ne_nil H hHne)
  have hencne : (encodeRecord M).isEmpty = false := by
    cases hc : encodeRecord M
    · exact absurd ((encodeRecord_eq_nil_iff M).mp hc) hMne
    · rfl
  have hndM : ((encodeRecord M).map Prod.fst).Nodup := by
    rw [keys_encodeRecord]
    refine nodupKeys_jsSpread _ _ ?_ hndU
    rw [keys_decodeRecord]
    exact hndH
  have hstep1 : setObjectAsHash (getUserKey uid) M S0 =
      .ok (upd S0 (getUserKey uid)
        (some (RVal.hash (hsetMerge H (encodeRecord M))))) := by
    rw [setObjectAsHash, rhset, hencne, hstored]
    rfl
  have hsetU : ∃ S1, setUser uid M S0 = .ok (M, S1) ∧
      S1 (getUserKey uid) = some (RVal.hash (hsetMerge H (encodeRecord M))) := by
    rw [setUser, hstep1]
    cases hgem : getField M "email" with
    | none =>
      exact ⟨_, rfl, upd_same _ _ _⟩
    | some v =>
      dsimp only
      have hfs : fieldString M "email" = jsToString v := by
        rw [fieldString, hgem]
      cases htr : truthyVal v with
      | true =>
        have hne2 : getUserKey uid ≠ getUserByEmailKey (jsToString v) := by
          intro hh
          apply hek
          rw [hfs]
          exact hh.symm
        refine ⟨_, if_pos rfl, ?_⟩
        rw [rset, upd_ne _ _ _ _ hne2, upd_same]
      | false =>
        rw [if_neg (by simp)]
        exact ⟨_, rfl, upd_same _ _ _⟩
  obtain ⟨S1, hS1, hS1k⟩ := hsetU
  have hupdate : updateUser u S0 = .ok (M, S1) := by
    rw [updateUser]
    show (match getUser (fieldString u "id") S0 with
      | Except.error e => Except.error e
      | Except.ok uu => setUser (fieldString u "id") (jsSpread (uu.getD []) u) S0) = _
    rw [huid, hgetu]
    exact hS1
  have hmergeLook : ∀ f, alookup (hsetMerge H (encodeRecord M)) f =
      match alookup (encodeRecord M) f with
      | some v => some v
      | none => alookup H f := fun f => hsetMerge_alookup _ _ hndM f
  refine ⟨S1, hupdate, ?_, hS1k, ?_, ?_⟩
  · intro f
    rw [hM, getField_jsSpread]
  · intro f hf
    rw [hmergeLook f, alookup_encodeRecord, hM, getField_jsSpread, hf]
    cases hHf : getField (decodeRecord H) f with
    | none =>
      rw [getField_decodeRecord] at hHf
      cases hlf : alookup H f
      · rfl
      · rw [hlf] at hHf
        simp at hHf
    | some w =>
      rw [getField_decodeRecord] at hHf
      cases hlf : alookup H f with
      | none => rw [hlf] at hHf; simp at hHf
      | some s =>
        rw [hlf] at hHf
        simp only [Option.map_some'] at hHf
        obtain rfl : decodeVal s = w := Option.some_injective _ hHf
        simp only [Option.map_some']
        have hmem := alookup_mem hlf
        have hst : encodeVal (decodeVal s) = s := by
          have := (List.all_eq_true.mp hstable) _ hmem
          exact eq_of_beq this
        rw [hst]
  · intro f v hf
    rw [hmergeLook f, alookup_encodeRecord, hM, getField_jsSpread, hf]
    rfl


/-- Witness for C5: updating only `name` of the stored user `{id, name,
email}` preserves `email` and persists the new `name`. -/
theorem C5_updateUser_merge_witness :
    (exStoreU1 (getUserKey "1") =
        some (RVal.hash [("id", "1"), ("name", "A"), ("email", "a@x.com")]) ∧
      getField [("id", Val.str "1"), ("name", Val.str "B")] "id" = some (Val.str "1") ∧
      hashCodecStable [("id", "1"), ("name", "A"), ("email", "a@x.com")] = true) ∧
    (∃ S1, updateUser [("id", Val.str "1"), ("name", Val.str "B")] exStoreU1 =
        .ok (jsSpread (decodeRecord [("id", "1"), ("name", "A"), ("email", "a@x.com")])
          [("id", Val.str "1"), ("name", Val.str "B")], S1) ∧
      (∀ f, getField (jsSpread (decodeRecord [("id", "1"), ("name", "A"), ("email", "a@x.com")])
          [("id", Val.str "1"), ("name", Val.str "B")]) f =
        match getField [("id", Val.str "1"), ("name", Val.str "B")] f with
        | some v => some v
        | none => getField (decodeRecord [("id", "1"), ("name", "A"), ("email", "a@x.com")]) f) ∧
      S1 (getUserKey "1") =
        some (RVal.hash (hsetMerge [("id", "1"), ("name", "A"), ("email", "a@x.com")]
          (encodeRecord (jsSpread (decodeRecord [("id", "1"), ("name", "A"), ("email", "a@x.com")])
            [("id", Val.str "1"), ("name", Val.str "B")])))) ∧
      (∀ f, getField [("id", Val.str "1"), ("name", Val.str "B")] f = none →
        alookup (hsetMerge [("id", "1"), ("name", "A"), ("email", "a@x.com")]
          (encodeRecord (jsSpread (decodeRecord [("id", "1"), ("name", "A"), ("email", "a@x.com")])
            [("id", Val.str "1"), ("name", Val.str "B")]))) f =
          alookup [("id", "1"), ("name", "A"), ("email", "a@x.com")] f) ∧
      (∀ f v, getField [("id", Val.str "1"), ("name", Val.str "B")] f = some v →
        alookup (hsetMerge [("id", "1"), ("name", "A"), ("email", "a@x.com")]
          (encodeRecord (jsSpread (decodeRecord [("id", "1"), ("name", "A"), ("email", "a@x.com")])
            [("id", Val.str "1"), ("name", Val.str "B")]))) f =
          some (encodeVal v))) :=
  ⟨⟨rfl, rfl, by decide⟩,
    C5_updateUser_merge "1" [("id", "1"), ("name", "A"), ("email", "a@x.com")]
      [("id", Val.str "1"), ("name", Val.str "B")] exStoreU1
      (by decide) (by decide) rfl (by decide) rfl (by decide) (by decide)⟩


/-- C10: `updateUser` with a changed email never removes the superseded
email pointer: the pointer key for the old email still exists and still
maps to the user id, so `getUserByEmail` with the old email returns the
user record whose `email` field is already the new address. -/
theorem C10_stale_email_pointer (uid e1 e2 : String) (H : Hash) (u : Record) (S0 : Store)
    (hndH : (H.map Prod.fst).Nodup) (hndU : (u.map Prod.fst).Nodup)
    (hstored : S0 (getUserKey uid) = some (RVal.hash H)) (hHne : H ≠ [])
    (hpointer : S0 (getUserByEmailKey e1) = some (RVal.str uid))
    (hid : getField u "id" = some (Val.str uid))
    (hemail : getField u "email" = some (Val.str e2))
    (he2 : strTruthy e2 = true)
    (he2d : isDateB e2 = false)
    (hk1 : getUserByEmailKey e1 ≠ getUserKey uid)
    (hk12 : getUserByEmailKey e1 ≠ getUserByEmailKey e2)
    (hk2 : getUserByEmailKey e2 ≠ getUserKey uid)
    (htuid : strTruthy uid = true) :
    ∃ S1, updateUser u S0 = .ok (jsSpread (decodeRecord H) u, S1) ∧
      S1 (getUserByEmailKey e1) = some (RVal.str uid) ∧
      ∃ r, getUserByEmail e1 S1 = .ok (some r) ∧
        getField r "email" = some (Val.str e2) := by
  set M := jsSpread (decodeRecord H) u with hM
  have hempH : H.isEmpty = false := by
    cases H
    · exact absurd rfl hHne
    · rfl
  have huid : fieldString u "id" = uid := by
    rw [fieldString, hid]
    rfl
  have hgetu : getUser uid S0 = .ok (some (decodeRecord H)) := by
    rw [getUser, loadObjectFromHash, rhgetall, hstored]
    simp [hempH]
  have hMemail : getField M "email" = some (Val.str e2) := by
    rw [hM, getField_jsSpread, hemail]
  have hMne : M ≠ [] :=
    jsSpread_ne_nil_left _ _ (decodeRecord_ne_nil H hHne)
  have hencne : (encodeRecord M).isEmpty = false := by
    cases hc : encodeRecord M
    · exact absurd ((encodeRecord_eq_nil_iff M).mp hc) hMne
    · rfl
  have hndM : ((encodeRecord M).map Prod.fst).Nodup := by
    rw [keys_encodeRecord]
    refine nodupKeys_jsSpread _ _ ?_ hndU
    rw [keys_decodeRecord]
    exact hndH
  have hstep1 : setObjectAsHash (getUserKey uid) M S0 =
      .ok (upd S0 (getUserKey uid)
        (some (RVal.hash (hsetMerge H (encodeRecord M))))) := by
    rw [setObjectAsHash, rhset, hencne, hstored]
    rfl
  set HM := hsetMerge H (encodeRecord M) with hHM
  set S1 := upd (upd S0 (getUserKey uid) (some (RVal.hash HM))) (getUserByEmailKey e2)
    (some (RVal.str uid)) with hS1
  have hsetU : setUser uid M S0 = .ok (M, S1) := by
    rw [setUser, hstep1, hMemail]
    dsimp only
    rw [show truthyVal (Val.str e2) = true from he2, if_pos rfl]
    rfl
  have hupdate : updateUser u S0 = .ok (M, S1) := by
    rw [updateUser]
    show (match getUser (fieldString u "id") S0 with
      | Except.error e => Except.error e
      | Except.ok uu => setUser (fieldString u "id") (jsSpread (uu.getD []) u) S0) = _
    rw [huid, hgetu]
    exact hsetU
  have hS1e1 : S1 (getUserByEmailKey e1) = some (RVal.str uid) := by
    rw [hS1, upd_ne _ _ _ _ hk12, upd_ne _ _ _ _ hk1, hpointer]
  have hS1user : S1 (getUserKey uid) = some (RVal.hash HM) := by
    rw [hS1, upd_ne _ _ _ _ (fun hh => hk2 hh.symm), upd_same]
  have hlookem : alookup HM "email" = some e2 := by
    rw [hHM, hsetMerge_alookup _ _ hndM, alookup_encodeRecord, hMemail]
    rfl
  have hHMne : HM.isEmpty = false := by
    cases hc : HM
    · rw [hc] at hlookem
      simp [alookup] at hlookem
    · rfl
  have hgetU1 : getUser uid S1 = .ok (some (decodeRecord HM)) := by
    rw [getUser, loadObjectFromHash, rhgetall, hS1user]
    simp [hHMne]
  refine ⟨S1, hupdate, hS1e1, decodeRecord HM, ?_, ?_⟩
  · rw [getUserByEmail, rget, hS1e1]
    show (if strTruthy uid = true then getUser uid S1 else Except.ok none) = _
    rw [htuid, if_pos rfl]
    exact hgetU1
  · rw [getField_decodeRecord, hlookem, Option.map_some', decodeVal_of_not_isDate e2 he2d]


/-- Witness for C10: re-pointing the email from a@x.com to b@y.com
leaves the a@x.com pointer mapping to the user. -/
theorem C10_stale_email_pointer_witness :
    (exStoreU1E (getUserKey "1") =
        some (RVal.hash [("id", "1"), ("name", "A"), ("email", "a@x.com")]) ∧
      exStoreU1E (getUserByEmailKey "a@x.com") = some (RVal.str "1") ∧
      isDateB "b@y.com" = false ∧
      getUserByEmailKey "a@x.com" ≠ getUserByEmailKey "b@y.com") ∧
    (∃ S1, updateUser [("id", Val.str "1"), ("email", Val.str "b@y.com")] exStoreU1E =
        .ok (jsSpread (decodeRecord [("id", "1"), ("name", "A"), ("email", "a@x.com")])
          [("id", Val.str "1"), ("email", Val.str "b@y.com")], S1) ∧
      S1 (getUserByEmailKey "a@x.com") = some (RVal.str "1") ∧
      ∃ r, getUserByEmail "a@x.com" S1 = .ok (some r) ∧
        getField r "email" = some (Val.str "b@y.com")) :=
  ⟨⟨rfl, rfl, by decide, by decide⟩,
    C10_stale_email_pointer "1" "a@x.com" "b@y.com"
      [("id", "1"), ("name", "A"), ("email", "a@x.com")]
      [("id", Val.str "1"), ("email", Val.str "b@y.com")] exStoreU1E
      (by decide) (by decide) rfl (by decide) rfl rfl rfl (by decide) (by decide)
      (by decide) (by decide) (by decide) (by decide)⟩


/-- C6 counterexample: when the prior record cannot be read the two
operations do NOT behave the same: on an empty store `updateUser`
persists the merge onto an empty record and returns it, while
`updateSession` returns not-found and writes nothing. -/
theorem C6_counterexample :
    updateSession [("sessionToken", Val.str "t1"), ("userId", Val.str "u2")] emptyStore =
      .ok (none, emptyStore) ∧
    (∃ S1, updateUser [("id", Val.str "u1"), ("name", Val.str "B")] emptyStore =
        .ok ([("id", Val.str "u1"), ("name", Val.str "B")], S1) ∧
      S1 (getUserKey "u1") = some (RVal.hash [("id", "u1"), ("name", "B")])) :=
  ⟨rfl, ⟨_, rfl, rfl⟩⟩

/-- C6 (amended): `updateSession` follows the same merge policy as
`updateUser` for records that exist — read by token, JS-spread the
supplied fields over the stored record (supplied fields win), persist
the result; when the prior record cannot be read the behaviours differ:
`updateSession` returns not-found without writing, whereas `updateUser`
persists the merge onto an empty record. -/
theorem C6_updateSession_merge (tok : String) (H : Hash) (u : Record) (S0 : Store)
    (hstored : S0 (getSessionKey tok) = some (RVal.hash H)) (hHne : H ≠ [])
    (htok : fieldString u "sessionToken" = tok)
    (hkne : getSessionByUserIdKey
        (fieldString (jsSpread (withFieldFirst "id" (decodeRecord H)) u) "userId")
      ≠ getSessionKey tok) :
    (∃ S1, updateSession u S0 =
        .ok (some (jsSpread (withFieldFirst "id" (decodeRecord H)) u), S1) ∧
      S1 (getSessionKey tok) = some (RVal.hash (hsetMerge H
        (encodeRecord (jsSpread (withFieldFirst "id" (decodeRecord H)) u)))) ∧
      (∀ f, getField (jsSpread (withFieldFirst "id" (decodeRecord H)) u) f =
        match getField u f with
        | some v => some v
        | none => getField (withFieldFirst "id" (decodeRecord H)) f)) ∧
    (∀ (u' : Record) (S : Store),
      S (getSessionKey (fieldString u' "sessionToken")) = none →
      updateSession u' S = .ok (none, S)) ∧
    (∀ (u' : Record) (S : Store) (uid : String),
      S (getUserKey uid) = none → getField u' "id" = some (Val.str uid) → u' ≠ [] →
      getUserByEmailKey (fieldString u' "email") ≠ getUserKey uid →
      ∃ S1, updateUser u' S = .ok (u', S1) ∧
        S1 (getUserKey uid) = some (RVal.hash (hsetMerge [] (encodeRecord u')))) := by
  refine ⟨?_, ?_, ?_⟩
  · set sess := withFieldFirst "id" (decodeRecord H) with hsess
    set M := jsSpread sess u with hM
    have hempH : H.isEmpty = false := by
      cases H
      · exact absurd rfl hHne
      · rfl
    have hgets : getSession tok S0 = .ok (some sess) := by
      rw [getSession, loadObjectFromHash, rhgetall, hstored]
      simp [hempH, hsess]
    have hMne : M ≠ [] := by
      rw [hM, hsess]
      exact jsSpread_ne_nil_left _ _ (by rw [withFieldFirst]; cases getField (decodeRecord H) "id" <;> simp)
    have hencne : (encodeRecord M).isEmpty = false := by
      cases hc : encodeRecord M
      · exact absurd ((encodeRecord_eq_nil_iff M).mp hc) hMne
      · rfl
    have hstep1 : setObjectAsHash (getSessionKey tok) M S0 =
        .ok (upd S0 (getSessionKey tok)
          (some (RVal.hash (hsetMerge H (encodeRecord M))))) := by
      rw [setObjectAsHash, rhset, hencne, hstored]
      rfl
    set S1 := upd (upd S0 (getSessionKey tok)
        (some (RVal.hash (hsetMerge H (encodeRecord M)))))
      (getSessionByUserIdKey (fieldString M "userId"))
      (some (RVal.str (getSessionKey tok))) with hS1
    have hsetS : setSession tok M S0 = .ok (M, S1) := by
      rw [setSession, hstep1]
      rfl
    have hupd : updateSession u S0 = .ok (some M, S1) := by
      rw [updateSession]
      show (match getSession (fieldString u "sessionToken") S0 with
        | Except.error e => Except.error e
        | Except.ok none => Except.ok (none, S0)
        | Except.ok (some session) =>
          match setSession (fieldString u "sessionToken") (jsSpread session u) S0 with
          | Except.error e => Except.error e
          | Except.ok (r, S1) => Except.ok (some r, S1)) = _
      rw [htok, hgets]
      show (match setSession tok (jsSpread sess u) S0 with
        | Except.error e => Except.error e
        | Except.ok (r, S1) => Except.ok (some r, S1)) = _
      rw [← hM, hsetS]
    have hS1k : S1 (getSessionKey tok) =
        some (RVal.hash (hsetMerge H (encodeRecord M))) := by
      rw [hS1, upd_ne _ _ _ _ (fun hh => hkne hh.symm), upd_same]
    exact ⟨S1, hupd, hS1k, fun f => by rw [hM, getField_jsSpread]⟩
  · intro u' S habs
    rw [updateSession]
    show (match getSession (fieldString u' "sessionToken") S with
      | Except.error e => Except.error e
      | Except.ok none => Except.ok (none, S)
      | Except.ok (some session) =>
        match setSession (fieldString u' "sessionToken") (jsSpread session u') S with
        | Except.error e => Except.error e
        | Except.ok (r, S1) => Except.ok (some r, S1)) = _
    rw [getSession, loadObjectFromHash, rhgetall, habs]
    rfl
  · intro u' S uid habs hid hne hek
    have huid : fieldString u' "id" = uid := by
      rw [fieldString, hid]
      rfl
    have hgetu : getUser uid S = .ok none := by
      rw [getUser, loadObjectFromHash, rhgetall, habs]
      rfl
    have hencne : (encodeRecord u').isEmpty = false := by
      cases hc : encodeRecord u'
      · exact absurd ((encodeRecord_eq_nil_iff u').mp hc) hne
      · rfl
    have hstep1 : setObjectAsHash (getUserKey uid) u' S =
        .ok (upd S (getUserKey uid)
          (some (RVal.hash (hsetMerge [] (encodeRecord u'))))) := by
      rw [setObjectAsHash, rhset, hencne, habs]
      rfl
    have hsetU : ∃ S1, setUser uid u' S = .ok (u', S1) ∧
        S1 (getUserKey uid) = some (RVal.hash (hsetMerge [] (encodeRecord u'))) := by
      rw [setUser, hstep1]
      cases hgem : getField u' "email" with
      | none => exact ⟨_, rfl, upd_same _ _ _⟩
      | some v =>
        dsimp only
        have hfs : fieldString u' "email" = jsToString v := by
          rw [fieldString, hgem]
        cases htr : truthyVal v with
        | true =>
          have hne2 : getUserKey uid ≠ getUserByEmailKey (jsToString v) := by
            intro hh
            apply hek
            rw [hfs]
            exact hh.symm
          refine ⟨_, if_pos rfl, ?_⟩
          rw [rset, upd_ne _ _ _ _ hne2, upd_same]
        | false =>
          rw [if_neg (by simp)]
          exact ⟨_, rfl, upd_same _ _ _⟩
    obtain ⟨S1, hS1, hS1k⟩ := hsetU
    refine ⟨S1, ?_, hS1k⟩
    rw [updateUser]
    show (match getUser (fieldString u' "id") S with
      | Except.error e => Except.error e
      | Except.ok uu => setUser (fieldString u' "id") (jsSpread (uu.getD []) u') S) = _
    rw [huid, hgetu]
    show setUser uid (jsSpread [] u') S = _
    rw [jsSpread_nil_left]
    exact hS1


/-- Witness for C6 (amended) at a concrete stored session: merge of an
updated expiry over the stored record. -/
theorem C6_updateSession_merge_witness :
    (exStoreSession (getSessionKey "tok1") =
        some (RVal.hash [("id", "tok1"), ("sessionToken", "tok1"), ("userId", "u1"),
          ("expires", "2030-01-01T00:00:00.000Z")]) ∧
      fieldString [("sessionToken", Val.str "tok1"), ("expires", Val.date 1925078400000)]
        "sessionToken" = "tok1") ∧
    (∃ S1, updateSession
        [("sessionToken", Val.str "tok1"), ("expires", Val.date 1925078400000)]
        exStoreSession =
        .ok (some (jsSpread (withFieldFirst "id" (decodeRecord
            [("id", "tok1"), ("sessionToken", "tok1"), ("userId", "u1"),
              ("expires", "2030-01-01T00:00:00.000Z")]))
          [("sessionToken", Val.str "tok1"), ("expires", Val.date 1925078400000)]), S1) ∧
      S1 (getSessionKey "tok1") = some (RVal.hash (hsetMerge
        [("id", "tok1"), ("sessionToken", "tok1"), ("userId", "u1"),
          ("expires", "2030-01-01T00:00:00.000Z")]
        (encodeRecord (jsSpread (withFieldFirst "id" (decodeRecord
            [("id", "tok1"), ("sessionToken", "tok1"), ("userId", "u1"),
              ("expires", "2030-01-01T00:00:00.000Z")]))
          [("sessionToken", Val.str "tok1"), ("expires", Val.date 1925078400000)])))) ∧
      (∀ f, getField (jsSpread (withFieldFirst "id" (decodeRecord
            [("id", "tok1"), ("sessionToken", "tok1"), ("userId", "u1"),
              ("expires", "2030-01-01T00:00:00.000Z")]))
          [("sessionToken", Val.str "tok1"), ("expires", Val.date 1925078400000)]) f =
        match getField [("sessionToken", Val.str "tok1"),
            ("expires", Val.date 1925078400000)] f with
        | some v => some v
        | none => getField (withFieldFirst "id" (decodeRecord
            [("id", "tok1"), ("sessionToken", "tok1"), ("userId", "u1"),
              ("expires", "2030-01-01T00:00:00.000Z")])) f)) :=
  ⟨⟨rfl, rfl⟩,
    (C6_updateSession_merge "tok1"
      [("id", "tok1"), ("sessionToken", "tok1"), ("userId", "u1"),
        ("expires", "2030-01-01T00:00:00.000Z")]
      [("sessionToken", Val.str "tok1"), ("expires", Val.date 1925078400000)]
      exStoreSession rfl (by decide) rfl (by decide)).1⟩


theorem rdel_three (S : Store) (a b c : String) :
    rdel S [a, b, c] = upd (upd (upd S a none) b none) c none := rfl

/-- C4: after linking an account and creating a session for a stored
user, `deleteUser` leaves the user, the account (by its id) and the
session (by its token) all not-found and removes the email pointer and
both by-user pointers; `deleteUser` on an absent user id is a no-op. -/
theorem C4_deleteUser_cascade (U e tok aid : String) (uh : Hash) (acc sess : Record)
    (S0 : Store)
    (huser : S0 (getUserKey U) = some (RVal.hash uh)) (huhne : uh ≠ [])
    (hemail : fieldString (decodeRecord uh) "email" = e)
    (haid : getAccountId (fieldString acc "providerAccountId")
      (fieldString acc "provider") = aid)
    (hauid : fieldString (jsSpread acc [("id", Val.str aid)]) "userId" = U)
    (htok : fieldString sess "sessionToken" = tok)
    (hsuid : fieldString (jsSpread sess
      [("id", (getField sess "sessionToken").getD Val.undefined)]) "userId" = U)
    (hfA : S0 (getAccountKey aid) = none) (hfS : S0 (getSessionKey tok) = none)
    (hne12 : getUserKey U ≠ getUserByEmailKey e)
    (hne13 : getUserKey U ≠ getAccountKey aid)
    (hne14 : getUserKey U ≠ getAccountByUserIdKey U)
    (hne15 : getUserKey U ≠ getSessionKey tok)
    (hne16 : getUserKey U ≠ getSessionByUserIdKey U)
    (hne23 : getUserByEmailKey e ≠ getAccountKey aid)
    (hne24 : getUserByEmailKey e ≠ getAccountByUserIdKey U)
    (hne25 : getUserByEmailKey e ≠ getSessionKey tok)
    (hne26 : getUserByEmailKey e ≠ getSessionByUserIdKey U)
    (hne34 : getAccountKey aid ≠ getAccountByUserIdKey U)
    (hne35 : getAccountKey aid ≠ getSessionKey tok)
    (hne36 : getAccountKey aid ≠ getSessionByUserIdKey U)
    (hne45 : getAccountByUserIdKey U ≠ getSessionKey tok)
    (hne46 : getAccountByUserIdKey U ≠ getSessionByUserIdKey U)
    (hne56 : getSessionKey tok ≠ getSessionByUserIdKey U) :
    ∃ acc1 S1 sess1 S2 S3,
      linkAccount acc S0 = .ok (acc1, S1) ∧
      createSession sess S1 = .ok (sess1, S2) ∧
      deleteUser U S2 = .ok ((), S3) ∧
      getUser U S3 = .ok none ∧
      getAccount aid S3 = .ok none ∧
      getSession tok S3 = .ok none ∧
      S3 (getUserByEmailKey e) = none ∧
      S3 (getAccountByUserIdKey U) = none ∧
      S3 (getSessionByUserIdKey U) = none ∧
      (∀ (uid : String) (S : Store), S (getUserKey uid) = none →
        deleteUser uid S = .ok ((), S)) := by
  set acc1 := jsSpread acc [("id", Val.str aid)] with hacc1
  set sess1 := jsSpread sess
    [("id", (getField sess "sessionToken").getD Val.undefined)] with hsess1
  have hacc1ne : acc1 ≠ [] := jsSpread_ne_nil _ _ (List.cons_ne_nil _ _)
  have hsess1ne : sess1 ≠ [] := jsSpread_ne_nil _ _ (List.cons_ne_nil _ _)
  have henca : (encodeRecord acc1).isEmpty = false := by
    cases hc : encodeRecord acc1
    · exact absurd ((encodeRecord_eq_nil_iff acc1).mp hc) hacc1ne
    · rfl
  have hencs : (encodeRecord sess1).isEmpty = false := by
    cases hc : encodeRecord sess1
    · exact absurd ((encodeRecord_eq_nil_iff sess1).mp hc) hsess1ne
    · rfl
  set S1 := upd (upd S0 (getAccountKey aid)
      (some (RVal.hash (hsetMerge [] (encodeRecord acc1)))))
    (getAccountByUserIdKey U) (some (RVal.str (getAccountKey aid))) with hS1
  have hlink : linkAccount acc S0 = .ok (acc1, S1) := by
    rw [linkAccount]
    show setAccount (getAccountId (fieldString acc "providerAccountId")
      (fieldString acc "provider")) (jsSpread acc [("id", Val.str (getAccountId
        (fieldString acc "providerAccountId") (fieldString acc "provider")))]) S0 = _
    rw [haid]
    rw [setAccount, setObjectAsHash, rhset, henca, hfA]
    dsimp only
    rw [hauid]
    rfl
  have hS1KS : S1 (getSessionKey tok) = none := by
    rw [hS1, upd_ne _ _ _ _ (fun hh => hne45 hh.symm),
      upd_ne _ _ _ _ (fun hh => hne35 hh.symm), hfS]
  set S2 := upd (upd S1 (getSessionKey tok)
      (some (RVal.hash (hsetMerge [] (encodeRecord sess1)))))
    (getSessionByUserIdKey U) (some (RVal.str (getSessionKey tok))) with hS2
  have hsess : createSession sess S1 = .ok (sess1, S2) := by
    rw [createSession]
    show setSession (fieldString sess "sessionToken") sess1 S1 = _
    rw [htok, setSession, setObjectAsHash, rhset, hencs, hS1KS]
    dsimp only
    rw [hsuid]
    rfl
  have hgetU2 : getUser U S2 = .ok (some (decodeRecord uh)) := by
    have hk : S2 (getUserKey U) = some (RVal.hash uh) := by
      rw [hS2, upd_ne _ _ _ _ hne16, upd_ne _ _ _ _ hne15, hS1,
        upd_ne _ _ _ _ hne14, upd_ne _ _ _ _ hne13, huser]
    have hempU : uh.isEmpty = false := by
      cases uh
      · exact absurd rfl huhne
      · rfl
    rw [getUser, loadObjectFromHash, rhgetall, hk]
    simp [hempU]
  have hrgA : rget S2 (getAccountByUserIdKey U) = .ok (some (getAccountKey aid)) := by
    have hk : S2 (getAccountByUserIdKey U) = some (RVal.str (getAccountKey aid)) := by
      rw [hS2, upd_ne _ _ _ _ hne46, upd_ne _ _ _ _ hne45, hS1, upd_same]
    rw [rget, hk]
  have hrgS : rget S2 (getSessionByUserIdKey U) = .ok (some (getSessionKey tok)) := by
    rw [rget, hS2, upd_same]
  set S3 := rdel (rdel (rdel (rdel S2 [getUserByEmailKey e, getAccountByUserIdKey U,
    getSessionByUserIdKey U]) [getSessionKey tok]) [getAccountKey aid])
    [getUserKey U] with hS3
  have hdel : deleteUser U S2 = .ok ((), S3) := by
    rw [deleteUser, hgetU2]
    dsimp only
    rw [hemail, hrgA, hrgS]
    rfl
  have hS3eq : S3 = upd (upd (upd (upd (upd (upd S2
      (getUserByEmailKey e) none) (getAccountByUserIdKey U) none)
      (getSessionByUserIdKey U) none) (getSessionKey tok) none)
      (getAccountKey aid) none) (getUserKey U) none := by
    rw [hS3, rdel_three, rdel_one, rdel_one, rdel_one]
  refine ⟨acc1, S1, sess1, S2, S3, hlink, hsess, hdel, ?_, ?_, ?_, ?_, ?_, ?_, ?_⟩
  · have hk : S3 (getUserKey U) = none := by
      rw [hS3eq, upd_same]
    rw [getUser, loadObjectFromHash, rhgetall, hk]
    rfl
  · have hk : S3 (getAccountKey aid) = none := by
      rw [hS3eq, upd_ne _ _ _ _ (fun hh => hne13 hh.symm), upd_same]
    rw [getAccount, loadObjectFromHash, rhgetall, hk]
    rfl
  · have hk : S3 (getSessionKey tok) = none := by
      rw [hS3eq, upd_ne _ _ _ _ (fun hh => hne15 hh.symm),
        upd_ne _ _ _ _ (fun hh => hne35 hh.symm), upd_same]
    rw [getSession, loadObjectFromHash, rhgetall, hk]
    rfl
  · rw [hS3eq, upd_ne _ _ _ _ (fun hh => hne12 hh.symm),
      upd_ne _ _ _ _ hne23, upd_ne _ _ _ _ hne25,
      upd_ne _ _ _ _ hne26, upd_ne _ _ _ _ hne24, upd_same]
  · rw [hS3eq, upd_ne _ _ _ _ (fun hh => hne14 hh.symm),
      upd_ne _ _ _ _ (fun hh => hne34 hh.symm), upd_ne _ _ _ _ hne45,
      upd_ne _ _ _ _ hne46, upd_same]
  · rw [hS3eq, upd_ne _ _ _ _ (fun hh => hne16 hh.symm),
      upd_ne _ _ _ _ (fun hh => hne36 hh.symm),
      upd_ne _ _ _ _ (fun hh => hne56 hh.symm), upd_same]
  · intro uid S habs
    rw [deleteUser, getUser, loadObjectFromHash, rhgetall, habs]
    rfl


/-- Witness for C4: linking account github:42 and session tok1 to stored
user u1 and then deleting u1 leaves every read not-found. -/
theorem C4_deleteUser_cascade_witness :
    (exStoreUser (getUserKey "u1") = some (RVal.hash exUserHash) ∧
      fieldString (decodeRecord exUserHash) "email" = "a@x.com" ∧
      exStoreUser (getAccountKey "github:42") = none ∧
      exStoreUser (getSessionKey "tok1") = none) ∧
    (∃ acc1 S1 sess1 S2 S3,
      linkAccount exAccount exStoreUser = .ok (acc1, S1) ∧
      createSession exSession S1 = .ok (sess1, S2) ∧
      deleteUser "u1" S2 = .ok ((), S3) ∧
      getUser "u1" S3 = .ok none ∧
      getAccount "github:42" S3 = .ok none ∧
      getSession "tok1" S3 = .ok none ∧
      S3 (getUserByEmailKey "a@x.com") = none ∧
      S3 (getAccountByUserIdKey "u1") = none ∧
      S3 (getSessionByUserIdKey "u1") = none ∧
      (∀ (uid : String) (S : Store), S (getUserKey uid) = none →
        deleteUser uid S = .ok ((), S))) :=
  ⟨⟨rfl, by decide, rfl, rfl⟩,
    C4_deleteUser_cascade "u1" "a@x.com" "tok1" "github:42" exUserHash exAccount exSession
      exStoreUser rfl (by decide) (by decide) (by decide) (by decide) (by decide)
      (by decide) rfl rfl
      (by decide) (by decide) (by decide) (by decide) (by decide) (by decide) (by decide)
      (by decide) (by decide) (by decide) (by decide) (by decide) (by decide) (by decide)
      (by decide)⟩


/-- C9 counterexample: a plain string field whose value happens to be an
ISO-8601 timestamp string is misidentified: storing it and reading it
back yields a `Date`, not the original string. -/
theorem C9_counterexample :
    ∃ S1, setObjectAsHash "user:u9" [("name", Val.str "2024-01-01T00:00:00.000Z")]
        emptyStore = .ok S1 ∧
      loadObjectFromHash "user:u9" S1 = .ok (some [("name", Val.date 1704067200000)]) ∧
      Val.date 1704067200000 ≠ Val.str "2024-01-01T00:00:00.000Z" :=
  ⟨_, rfl, rfl, by decide⟩

/-- C9 (amended): the codec returns unchanged every string field that the
ISO-8601 detector (regex match plus valid parse) rejects — a string
field that the detector accepts is decoded into a timestamp, the
accepted limitation of the hash codec — and a timestamp field serializes
to the single canonical ISO-8601 text and deserializes back to the
identical instant. -/
theorem C9_codec (s : String) (i : Int) :
    (isDateB s = false → decodeVal s = Val.str s) ∧
    (0 ≤ i → i < (msUpper : Int) →
      encodeVal (Val.date i) = toISOString i.toNat ∧
      decodeVal (encodeVal (Val.date i)) = Val.date i) := by
  refine ⟨decodeVal_of_not_isDate s, fun h0 h1 => ⟨?_, decode_encode_date i h0 h1⟩⟩
  simp [encodeVal, toISOStringInt, h0, h1]

/-- Witness for C9 (amended): the plain string "hello" survives the
round trip unchanged; the instant 2024-01-01T00:00:00Z encodes to its
canonical text and decodes back. -/
theorem C9_codec_witness :
    (isDateB "hello" = false ∧ decodeVal "hello" = Val.str "hello") ∧
    (((0 : Int) ≤ 1704067200000 ∧ (1704067200000 : Int) < (msUpper : Int)) ∧
      (encodeVal (Val.date 1704067200000) = toISOString (1704067200000 : Int).toNat ∧
        decodeVal (encodeVal (Val.date 1704067200000)) = Val.date 1704067200000)) :=
  ⟨⟨by decide, (C9_codec "hello" 0).1 (by decide)⟩,
    ⟨⟨by decide, by decide⟩,
      (C9_codec "hello" 1704067200000).2 (by decide) (by decide)⟩⟩

end RedisAdapter
